import Mathlib

/-!
# Verification of the backgammon-cli rules engine

A shallow embedding of the backgammon rules engine (the `backgammon` module:
`player.rs`, `location.rs`/`position.rs`, `board.rs`, `dice.rs`,
`dice_roll.rs`, `notation.rs`, `turn.rs`, `game.rs`) together with theorems
settling the specification claims.

Modelling conventions, used consistently below:

* Rust `usize`/`u8` values are modelled as `Nat`; the one place where the
  64-bit width of `usize` is observable (integer parsing of numeric notation
  tokens, which fails on overflow) models the width explicitly.
* Rust panics (`panic!`, `.unwrap()`, `.expect(..)`, out-of-bounds indexing)
  are modelled as the distinguished value `Error.panicked` in fallible
  (`Except`) contexts, and as inert junk values in infallible contexts; every
  such spot is marked with a comment.  Theorems carry hypotheses that keep
  them away from the junk values exactly where the running program cannot
  reach the panic.
* `HashMap<u8,u8>` pip-frequency maps are modelled by the multiset of
  remaining pip lengths as a `List Nat` (the map's observable behaviour —
  `check`/`remove`/`available_rolls`/`any_available`/`max` — is exactly
  multiset behaviour; `HashMap` iteration order is unspecified in Rust, so
  no order-dependent fact is proved).
* `HashSet<Play>`/`HashSet<Turn>` results are modelled as `List`s and all
  facts about them are membership facts.
-/

namespace Backgammon

/-- `Player` from `player.rs`: Black = 0, White = 1, None = 2 (a sentinel). -/
inductive Player where
  | black
  | white
  | none
deriving DecidableEq, Repr

/-- `impl Not for Player` from `player.rs`: swaps black and white, fixes the
sentinel. -/
def Player.opp : Player → Player
  | .black => .white
  | .white => .black
  | .none => .none

/-- The `Error` enum (`backgammon.rs`), with the payload arities actually used
by the embedded revisions (`position.rs` passes the player along with the
out-of-range normalized value).  The extra constructor `panicked` is a
modelling device: it marks control paths on which the Rust program panics
(`expect`/`unwrap`/index out of bounds) instead of returning an error. -/
inductive Error where
  | invalidNormalizedPosition (pos : Nat) (player : Player)
  | invalidDenormalizedPosition (pos : Nat)
  | invalidIndexPosition (pos : Nat)
  | invalidNotation (text : String)
  | invalidPlayLength (len : Nat)
  | incompleteTurn
  | playMadeOutOfTurn
  | playMadeWithBarFilled
  | playMadeToBar
  | playMadeFromRail
  | playMadeFromEmptyPoint
  | playMadeWithOpposingPiece
  | invalidPlayDirection
  | playMadeOntoOpposingPiece
  | invalidBearOff
  | nonMaximalTurn
  | panicked
deriving DecidableEq, Repr

deriving instance DecidableEq for Except

/-! ## The location model (`location.rs`, identical in `position.rs`) -/

/-- `IndexLocation` (`location.rs`): a validated array index in `0..=23`.
The `TryFrom<usize>` range check is captured by the `Fin 24` type. -/
abbrev IndexLocation := Fin 24

/-- `IndexLocation::try_from` (`location.rs`): succeeds exactly on `0..=23`. -/
def IndexLocation.tryFrom (value : Nat) : Except Error IndexLocation :=
  if h : value < 24 then .ok ⟨value, h⟩ else .error (.invalidIndexPosition value)

/-- `NormalizedLocation` (`location.rs`): a position `0..=25` relative to a
player's perspective.  The range/sentinel validation lives in
`NormalizedLocation.new`; values produced by the program always satisfy it. -/
structure NormalizedLocation where
  val : Nat
  player : Player
deriving DecidableEq, Repr

/-- `NormalizedLocation::new` (`location.rs`): rejects the sentinel player and
values outside `0..=25`. -/
def NormalizedLocation.new (position : Nat) (player : Player) :
    Except Error NormalizedLocation :=
  if player = .none then .error (.invalidNormalizedPosition position player)
  else if position ≤ 25 then .ok ⟨position, player⟩
  else .error (.invalidNormalizedPosition position player)

/-- `NormalizedLocation::to_index` (`location.rs`): boundary values 0 and 25
denote bar/rail and fail; otherwise `pos-1` for Black and `24-pos` for White.
The `Player::None` arm panics in Rust. -/
def NormalizedLocation.toIndex (n : NormalizedLocation) :
    Except Error IndexLocation :=
  if n.val = 0 ∨ n.val = 25 then .error (.invalidIndexPosition n.val)
  else
    match n.player with
    | .black => IndexLocation.tryFrom (n.val - 1)
    | .white => IndexLocation.tryFrom (25 - n.val - 1)
    | .none => .error .panicked   -- Rust: panic in the `Player::None` arm

/-- `DenormalizedLocation`: absolute position `0..=25`; the newtype is modelled
as a bare `Nat` (its range invariant is part of `Board.Wf` below). -/
abbrev DenormalizedLocation := Nat

/-- `DenormalizedLocation::to_index` (`location.rs`). -/
def DenormalizedLocation.toIndex (d : DenormalizedLocation) :
    Except Error IndexLocation :=
  if d = 0 ∨ d = 25 then .error (.invalidIndexPosition d)
  else IndexLocation.tryFrom (d - 1)

/-- `DenormalizedPosition::normalize` (`position.rs`, the revision called from
`Game::get_available_plays`): identity for Black, mirror `25 - pos` for White;
the sentinel arm and the out-of-range `unwrap` panic in Rust and are modelled
by the junk value `⟨0, .none⟩`. -/
def DenormalizedLocation.normalize (d : DenormalizedLocation)
    (perspective : Player) : NormalizedLocation :=
  match perspective with
  | .black => (NormalizedLocation.new d .black).toOption.getD ⟨0, .none⟩
  | .white => (NormalizedLocation.new (25 - d) .white).toOption.getD ⟨0, .none⟩
  | .none => ⟨0, .none⟩   -- Rust: panic

/-- `IndexLocation::normalize` (`location.rs`): `i+1` for Black and
`25-(i+1)` for White (the `unwrap` never fires on those ranges; the sentinel
arm panics in Rust and is modelled by a junk value). -/
def IndexLocation.normalize (i : IndexLocation) (perspective : Player) :
    NormalizedLocation :=
  match perspective with
  | .black => (NormalizedLocation.new (i.val + 1) .black).toOption.getD ⟨0, .none⟩
  | .white => (NormalizedLocation.new (25 - (i.val + 1)) .white).toOption.getD ⟨0, .none⟩
  | .none => ⟨0, .none⟩   -- Rust: panic

/-- `IndexLocation::denormalize` (`location.rs`): `i + 1`, always in range. -/
def IndexLocation.denormalize (i : IndexLocation) : DenormalizedLocation :=
  i.val + 1

/-! ## Board (`board.rs`) -/

/-- `Position` (`board.rs`): one slot of the board — an absolute location, a
piece count and an owner. -/
structure Position where
  location : DenormalizedLocation
  count : Nat
  player : Player
deriving DecidableEq, Repr

/-- Junk value standing for the slot a Rust panic (out-of-bounds index with
the sentinel player) would have touched. -/
def Position.junk : Position := ⟨0, 0, .none⟩

/-- `Position::distance` (`board.rs`): absolute difference of locations. -/
def Position.distance (self other : Position) : Nat :=
  Nat.dist self.location other.location

/-- `PositionRef` (the `Space`/`PositionRef`/`BoardPosition` tagged reference
of `notation.rs`): a bar, a rail or one of the 24 points. -/
inductive PositionRef where
  | bar (player : Player)
  | rail (player : Player)
  | point (index : IndexLocation)
deriving DecidableEq, Repr

def PositionRef.isBar : PositionRef → Bool
  | .bar _ => true
  | _ => false

def PositionRef.isRail : PositionRef → Bool
  | .rail _ => true
  | _ => false

/-- A `PositionRef` is well formed when it does not mention the sentinel
player (the program only ever builds refs for the acting player, and a
sentinel ref makes the Rust board accessors panic). -/
def PositionRef.Wf : PositionRef → Prop
  | .bar p => p ≠ .none
  | .rail p => p ≠ .none
  | .point _ => True

instance : DecidablePred PositionRef.Wf := by
  intro r; cases r <;> simp [PositionRef.Wf] <;> infer_instance

/-- `Board` (`board.rs`): 24 points plus a bar and a rail slot per player
(`bar: [Position; 2]` and `rail: [Position; 2]` are spelled out as four
fields; indexing by `Player as usize` becomes the `bar`/`rail` accessors). -/
structure Board where
  points : List Position
  barBlack : Position
  barWhite : Position
  railBlack : Position
  railWhite : Position
deriving DecidableEq, Repr

/-- `Board::bar` (`board.rs`); indexing `bar[Player::None as usize]` would
panic in Rust and yields the junk slot here. -/
def Board.bar (b : Board) : Player → Position
  | .black => b.barBlack
  | .white => b.barWhite
  | .none => Position.junk   -- Rust: index out of bounds panic

/-- `Board::rail` (`board.rs`). -/
def Board.rail (b : Board) : Player → Position
  | .black => b.railBlack
  | .white => b.railWhite
  | .none => Position.junk   -- Rust: index out of bounds panic

/-- `Board::point` (`board.rs`); the out-of-range case cannot arise from a
`Fin 24` index on a well-formed board. -/
def Board.point (b : Board) (index : Nat) : Position :=
  b.points.getD index Position.junk

/-- `Board::get` (`board.rs`). -/
def Board.get (b : Board) : PositionRef → Position
  | .bar p => b.bar p
  | .rail p => b.rail p
  | .point i => b.point i.val

/-- Write through a `PositionRef` (the counterpart of `Board::get_mut`
followed by a store).  Writing through a sentinel ref is a no-op here (Rust
panics there). -/
def Board.set (b : Board) : PositionRef → Position → Board
  | .bar .black, v => { b with barBlack := v }
  | .bar .white, v => { b with barWhite := v }
  | .bar .none, _ => b   -- Rust: panic
  | .rail .black, v => { b with railBlack := v }
  | .rail .white, v => { b with railWhite := v }
  | .rail .none, _ => b   -- Rust: panic
  | .point i, v => { b with points := b.points.set i.val v }

/-- Read-modify-write through a `PositionRef` (a `get_mut` field update). -/
def Board.modifyRef (b : Board) (r : PositionRef) (f : Position → Position) :
    Board :=
  b.set r (f (b.get r))

/-- `Board::bar_mut` on the count field (used by the hit branch of
`make_play`). -/
def Board.modifyBar (b : Board) (p : Player) (f : Position → Position) : Board :=
  b.modifyRef (.bar p) f

/-- `Board::any_behind` (`board.rs`): does `player` own a piece strictly
farther from home than `index`?  Black scans `points[index+1..]`, White scans
`points[..index]`; the sentinel arm panics in Rust. -/
def Board.anyBehind (b : Board) (index : Nat) (player : Player) : Bool :=
  match player with
  | .black => (b.points.drop (index + 1)).any fun p => p.player == player && decide (0 < p.count)
  | .white => (b.points.take index).any fun p => p.player == player && decide (0 < p.count)
  | .none => false   -- Rust: panic

/-- `Board::all_in_home` (`board.rs`): no piece behind the home-board boundary
(index 5 for Black, 18 for White); the sentinel arm panics in Rust. -/
def Board.allInHome (b : Board) (player : Player) : Bool :=
  match player with
  | .black => ! b.anyBehind 5 .black
  | .white => ! b.anyBehind 18 .white
  | .none => false   -- Rust: panic

/-- `Position::set` (`board.rs`): overwrite count and owner. -/
def Position.setTo (pos : Position) (count : Nat) (player : Player) : Position :=
  { pos with count := count, player := player }

/-- `Board::empty` (`board.rs`): 24 empty points at locations `1..=24`; the
Black bar at 25 and White bar at 0; the Black rail at 0 and White rail at 25.
Note the bar and rail slots carry their owning player even while empty. -/
def Board.empty : Board where
  points := (List.range 24).map fun i => ⟨i + 1, 0, .none⟩
  barBlack := ⟨25, 0, .black⟩
  barWhite := ⟨0, 0, .white⟩
  railBlack := ⟨0, 0, .black⟩
  railWhite := ⟨25, 0, .white⟩

/-- Set a point of the board by raw index (`board.point_mut(i).set(c, p)`). -/
def Board.setPoint (b : Board) (i : Nat) (count : Nat) (player : Player) :
    Board :=
  { b with points := b.points.set i ((b.points.getD i Position.junk).setTo count player) }

/-- `Board::new` (`board.rs`): the standard backgammon starting layout —
Black on points 23/12/7/5 with 2/5/3/5 pieces, mirrored for White. -/
def Board.new : Board :=
  (((((((Board.empty.setPoint 23 2 .black).setPoint 12 5 .black).setPoint
      7 3 .black).setPoint 5 5 .black).setPoint 0 2 .white).setPoint
      11 5 .white).setPoint 16 3 .white).setPoint 18 5 .white

/-- Structural well-formedness of a board: the shape every board built by the
program's constructors has and every play application preserves — 24 points
whose stored locations are `index + 1`, and bar/rail slots at their fixed
locations owned by their designated player.  (In Rust nothing ever writes a
`location` field or a bar/rail owner, so every reachable `Board` value
satisfies this.) -/
def Board.Wf (b : Board) : Prop :=
  b.points.length = 24 ∧
  (∀ i : Fin 24, (b.points.getD i.val Position.junk).location = i.val + 1) ∧
  b.barBlack.location = 25 ∧ b.barBlack.player = .black ∧
  b.barWhite.location = 0 ∧ b.barWhite.player = .white ∧
  b.railBlack.location = 0 ∧ b.railBlack.player = .black ∧
  b.railWhite.location = 25 ∧ b.railWhite.player = .white

instance (b : Board) : Decidable b.Wf := by
  unfold Board.Wf; infer_instance

/-! ## Dice (`dice.rs`) -/

/-- `Dice` (`dice.rs`): the multiset of remaining usable pip lengths.  The
Rust representation is a `HashMap<u8,u8>` frequency table; its observable
behaviour is exactly that of the multiset, which is carried here as a list. -/
structure Dice where
  avail : List Nat
deriving DecidableEq, Repr

/-- `Dice::from`/`cast_freq` (`dice.rs`): a double `[v,v]` expands to four
uses (`1 << 2`); distinct dice give one use each. -/
def Dice.fromPair (a b : Nat) : Dice :=
  if a = b then ⟨[a, a, a, a]⟩ else ⟨[a, b]⟩

/-- `Dice::check` (`dice.rs`): is one more use of `cast` available? -/
def Dice.check (d : Dice) (cast : Nat) : Bool :=
  d.avail.contains cast

/-- `Dice::remove` (`dice.rs`): consume one use of `cast`.  When no use is
available Rust panics; here the multiset is returned unchanged (the program
only calls `remove` after `check`). -/
def Dice.remove (d : Dice) (cast : Nat) : Dice :=
  ⟨d.avail.erase cast⟩

/-- `Dice::available_rolls` (`dice.rs`): the remaining multiset. -/
def Dice.availableRolls (d : Dice) : List Nat :=
  d.avail

/-- `Dice::any_available` (`dice.rs`). -/
def Dice.anyAvailable (d : Dice) : Bool :=
  ! d.avail.isEmpty

/-- `Dice::max` (`dice.rs`): the largest remaining pip length; Rust `unwrap`s
and panics when the multiset is empty, hence the `Option`. -/
def Dice.maxAvail (d : Dice) : Option Nat :=
  d.avail.max?

/-! ## Plays and turns (`notation.rs`) -/

/-- `Play` (`notation.rs`): an atomic piece move.  The Rust field names are
`player`, `from`, `to`; `from` is reserved in Lean, hence `from_`/`to_`. -/
structure Play where
  player : Player
  from_ : PositionRef
  to_ : PositionRef
deriving DecidableEq, Repr

/-- A play is well formed when its refs avoid the sentinel player. -/
def Play.Wf (p : Play) : Prop :=
  p.from_.Wf ∧ p.to_.Wf

instance : DecidablePred Play.Wf := by
  intro p; unfold Play.Wf; infer_instance

/-- `Play::is_valid_direction` (`notation.rs`): White moves toward larger
absolute locations, Black toward smaller; the sentinel arm panics in Rust. -/
def Play.isValidDirection (play : Play) (b : Board) : Bool :=
  match play.player with
  | .white => decide ((b.get play.from_).location < (b.get play.to_).location)
  | .black => decide ((b.get play.to_).location < (b.get play.from_).location)
  | .none => false   -- Rust: panic

/-- `Turn` (`notation.rs`): an ordered sequence of plays. -/
structure Turn where
  plays : List Play
deriving DecidableEq, Repr

/-- Modelled from the spec: `Turn::distance` is called by
`Game::get_available_turns` and `Game::check_turn` (`game.rs` lines 333 and
339) but its definition is not among the source files; per the spec a turn's
measure is its "total pip distance", the sum of the board distances of its
plays. -/
def Turn.distance (t : Turn) (b : Board) : Nat :=
  (t.plays.map fun p => (b.get p.to_).distance (b.get p.from_)).sum

/-- A turn is well formed when all its plays are. -/
def Turn.Wf (t : Turn) : Prop :=
  ∀ p ∈ t.plays, p.Wf

instance : DecidablePred Turn.Wf := by
  intro t; unfold Turn.Wf; infer_instance

/-! ## The game aggregate and play validation (`game.rs`) -/

/-- `Game` (`game.rs`). -/
structure Game where
  currentPlayer : Player
  currentRoll : Dice
  board : Board
deriving DecidableEq, Repr

/-- `Game::check_play` (`game.rs`): the ordered chain of legality guards; the
first failing guard's error is returned.  The two `expect`/`unwrap` panic
paths (indexing a bar/rail location and taking the max of an empty dice
multiset) are modelled by `Error.panicked`. -/
def Game.checkPlay (g : Game) (play : Play) : Except Error Unit :=
  if g.currentPlayer ≠ play.player then .error .playMadeOutOfTurn
  else if 0 < (g.board.bar play.player).count ∧ ¬ play.from_.isBar then
    .error .playMadeWithBarFilled
  else if play.from_.isRail then .error .playMadeFromRail
  else if play.to_.isBar then .error .playMadeToBar
  else if play.to_.isRail ∧ ¬ g.board.allInHome play.player then
    .error .invalidBearOff
  else
    let fromPos := g.board.get play.from_
    let toPos := g.board.get play.to_
    if fromPos.count = 0 then .error .playMadeFromEmptyPoint
    else if fromPos.player ≠ play.player then .error .playMadeWithOpposingPiece
    else if ¬ play.isValidDirection g.board then .error .invalidPlayDirection
    else if toPos.player = play.player.opp ∧ 1 < toPos.count then
      .error .playMadeOntoOpposingPiece
    else
      let len := toPos.distance fromPos
      if ¬ g.currentRoll.check len then
        match fromPos.location.toIndex with
        | .error _ => .error .panicked   -- Rust: `.expect("location should be indexable")`
        | .ok index =>
          if ¬ play.to_.isRail ∨ g.board.anyBehind index.val play.player then
            .error (.invalidPlayLength len)
          else
            match g.currentRoll.maxAvail with
            | Option.none => .error .panicked   -- Rust: `Dice::max` unwraps an empty iterator
            | some m => if m < len then .error (.invalidPlayLength len) else .ok ()
      else .ok ()

/-- `Game::make_play` (`game.rs`): consume the matching pip length (or the
maximum length for an over-roll bear-off), relocate a hit blot to its owner's
bar, move the piece, and clear the origin's owner when it empties off-bar. -/
def Game.makePlay (g : Game) (play : Play) : Game :=
  let fromPos := g.board.get play.from_
  let toPos := g.board.get play.to_
  let len := toPos.distance fromPos
  let roll :=
    if g.currentRoll.check len then g.currentRoll.remove len
    else
      -- Rust asserts the over-roll bear-off conditions here and panics if
      -- they fail; `check_play` has already established them.
      g.currentRoll.remove ((g.currentRoll.maxAvail).getD 0)
  let b0 := g.board
  let b1 :=
    if toPos.player = play.player.opp ∧ toPos.count = 1 then
      let hitOwner := toPos.player
      let cleared := b0.modifyRef play.to_ fun t => { t with count := 0, player := .none }
      cleared.modifyBar hitOwner fun bar => { bar with count := bar.count + 1 }
    else b0
  let b2 := b1.modifyRef play.from_ fun f => { f with count := f.count - 1 }
  let b3 := b2.modifyRef play.to_ fun t => { t with player := play.player, count := t.count + 1 }
  let b4 :=
    if (b3.get play.from_).count = 0 ∧ ¬ play.from_.isBar then
      b3.modifyRef play.from_ fun f => { f with player := .none }
    else b3
  { g with currentRoll := roll, board := b4 }

/-- `Game::get_available_plays` (`game.rs`): from each candidate origin (the
bar alone when occupied, else every point owned by the current player) and
each remaining pip length, compute the destination by normalized-coordinate
arithmetic (`checked_sub` clamping at the rail) and keep the play iff
`check_play` accepts it.  Both `?`-propagated errors inside the closure drop
the candidate (`flat_map` over `Result` yields nothing for `Err`). -/
def Game.getAvailablePlays (g : Game) : List Play :=
  let player := g.currentPlayer
  let origins : List PositionRef :=
    if 0 < (g.board.bar player).count then [.bar player]
    else
      (List.finRange 24).filterMap fun i =>
        if (g.board.get (.point i)).player = player then some (.point i)
        else Option.none
  origins.flatMap fun fromRef =>
    g.currentRoll.availableRolls.filterMap fun roll =>
      let fromLocation := (g.board.get fromRef).location.normalize player
      let toLocation : Except Error NormalizedLocation :=
        if roll ≤ fromLocation.val then
          NormalizedLocation.new (fromLocation.val - roll) player
        else NormalizedLocation.new 0 player
      match toLocation with
      | .error _ => Option.none
      | .ok nl =>
        let toRef : PositionRef :=
          match nl.toIndex with
          | .ok i => .point i
          | .error _ => .rail player
        let play : Play := ⟨player, fromRef, toRef⟩
        match g.checkPlay play with
        | .ok _ => some play
        | .error _ => Option.none

/-- The recursive helper `_get_available_turns` of `Game::get_available_turns`
(`game.rs`): if no play is available the only continuation is the empty one;
otherwise extend every available play by every continuation of the state it
produces.  The Rust recursion terminates because each applied play consumes
one die; the `fuel` parameter makes that measure explicit, and
`Game.getAvailableTurns` supplies fuel strictly larger than the number of
remaining dice, which (as proved below) keeps the fuel-exhausted case
unreachable. -/
def Game.availableTurnsAux : Nat → Game → List (List Play)
  | 0, _ => [[]]
  | fuel + 1, g =>
    let plays := g.getAvailablePlays
    if plays.isEmpty then [[]]
    else
      plays.flatMap fun play =>
        ((g.makePlay play).availableTurnsAux fuel).map fun rest => play :: rest

/-- `Game::get_available_turns` (`game.rs`): enumerate all full turns, then
keep exactly those whose total pip distance is the maximum (`unwrap_or(0)`
when there are no turns at all). -/
def Game.getAvailableTurns (g : Game) : List Turn :=
  let turns := (g.availableTurnsAux (g.currentRoll.avail.length + 1)).map Turn.mk
  let maxd := (turns.map fun t => t.distance g.board).max?.getD 0
  turns.filter fun t => t.distance g.board == maxd

/-- The play-by-play loop at the top of `Game::check_turn` (`game.rs`):
validate each play against the state produced by its predecessors, applying
each play as it validates. -/
def Game.checkTurnPlays : Game → List Play → Except Error Game
  | g, [] => .ok g
  | g, play :: rest =>
    match g.checkPlay play with
    | .error e => .error e
    | .ok _ => (g.makePlay play).checkTurnPlays rest

/-- `Game::check_turn` (`game.rs`): run the plays, reject an incomplete turn
(a usable die remains and some play is still legal), then reject any turn not
among the maximal enumerated turns of the pre-turn state. -/
def Game.checkTurn (g : Game) (turn : Turn) : Except Error Unit :=
  match g.checkTurnPlays turn.plays with
  | .error e => .error e
  | .ok after =>
    if after.currentRoll.anyAvailable ∧ ¬ after.getAvailablePlays.isEmpty then
      .error .incompleteTurn
    else if turn ∉ g.getAvailableTurns then .error .nonMaximalTurn
    else .ok ()

/-! ## `DiceRoll` (`dice_roll.rs`) -/

/-- `DiceRoll` (`dice_roll.rs`): the dice pair's derived multiset of available
pip lengths, kept sorted ascending (`calculate_available` ends in
`.sorted()`); only the multiset is relevant to the claims below. -/
structure DiceRoll where
  available : List Nat
deriving DecidableEq, Repr

/-- `DiceRoll::from`/`calculate_available` (`dice_roll.rs`): doubles provide
four uses, distinct values one use each, sorted ascending. -/
def DiceRoll.fromPair (a b : Nat) : DiceRoll :=
  if a = b then ⟨[a, a, a, a]⟩ else if a ≤ b then ⟨[a, b]⟩ else ⟨[b, a]⟩

/-- `DiceRoll::contains` (`dice_roll.rs`). -/
def DiceRoll.containsLen (d : DiceRoll) (value : Nat) : Bool :=
  d.available.contains value

/-- `DiceRoll::any_available` (`dice_roll.rs`). -/
def DiceRoll.anyAvailable (d : DiceRoll) : Bool :=
  ! d.available.isEmpty

/-- `DiceRoll::max` (`dice_roll.rs`): `unwrap_or(0)` on empty. -/
def DiceRoll.maxLen (d : DiceRoll) : Nat :=
  d.available.max?.getD 0

/-- `DiceRoll::consume` (`dice_roll.rs`): `&mut self` semantics made explicit
as (new state, result).  When some instance of `value` is present the first
one is removed (`position` + `Vec::remove`) and `Ok(())` is returned;
otherwise the state is untouched and `Err(InvalidPlayLength(value))` is
returned. -/
def DiceRoll.consume (d : DiceRoll) (value : Nat) :
    DiceRoll × Except Error Unit :=
  if d.available.contains value then (⟨d.available.erase value⟩, .ok ())
  else (d, .error (.invalidPlayLength value))

/-! ## Claim C8: dice consumption failure -/

/-- **C8.** `DiceRoll::consume` (`dice_roll.rs`): consuming a length with no
remaining instance returns the length-not-available error and leaves the
multiset unchanged; consuming an available length succeeds and removes
exactly one instance of that length, leaving every other length's
multiplicity unchanged. -/
theorem diceRoll_consume_spec (d : DiceRoll) (value : Nat) :
    (d.containsLen value = false →
      d.consume value = (d, .error (.invalidPlayLength value))) ∧
    (d.containsLen value = true →
      (d.consume value).2 = .ok () ∧
      ((d.consume value).1.available.count value) + 1 =
        d.available.count value ∧
      ∀ w, w ≠ value →
        (d.consume value).1.available.count w = d.available.count w) := by
  constructor
  · intro h
    have hnot : value ∉ d.available := by simpa [DiceRoll.containsLen] using h
    simp [DiceRoll.consume, hnot]
  · intro h
    have hmem : value ∈ d.available := by simpa [DiceRoll.containsLen] using h
    refine ⟨by simp [DiceRoll.consume, hmem], ?_, ?_⟩
    · have hpos : 0 < d.available.count value := List.count_pos_iff.mpr hmem
      have hce := List.count_erase_self value d.available
      simp only [DiceRoll.consume, List.elem_eq_mem, decide_eq_true_eq, if_pos hmem]
      omega
    · intro w hw
      simp only [DiceRoll.consume, List.elem_eq_mem, decide_eq_true_eq, if_pos hmem]
      exact List.count_erase_of_ne hw d.available

/-- Witness for C8: dice `[2,5]`, consuming 3 fails and leaves the multiset
unchanged, consuming 2 removes exactly the single 2. -/
theorem diceRoll_consume_spec_witness :
    ((DiceRoll.fromPair 2 5).containsLen 3 = false →
      (DiceRoll.fromPair 2 5).consume 3 =
        (DiceRoll.fromPair 2 5, .error (.invalidPlayLength 3))) ∧
    ((DiceRoll.fromPair 2 5).containsLen 3 = true → True) ∧
    ((DiceRoll.fromPair 2 5).containsLen 2 = true →
      ((DiceRoll.fromPair 2 5).consume 2).2 = .ok ()) := by
  refine ⟨(diceRoll_consume_spec (DiceRoll.fromPair 2 5) 3).1, fun _ => trivial,
    fun h => ((diceRoll_consume_spec (DiceRoll.fromPair 2 5) 2).2 h).1⟩

/-! ## Claim C6: coordinate round-trip -/

/-- **C6.** Coordinate round-trip: for every index position `0..=23` and every
non-sentinel player, `normalize` followed by `to_index` returns the original
index (`IndexLocation::normalize` then `NormalizedLocation::to_index`,
`location.rs`). -/
theorem normalize_toIndex_roundtrip (i : IndexLocation) (p : Player)
    (hp : p ≠ Player.none) : (i.normalize p).toIndex = .ok i := by
  have hb : ∀ j : Fin 24, (IndexLocation.normalize j .black).toIndex = .ok j := by
    decide
  have hw : ∀ j : Fin 24, (IndexLocation.normalize j .white).toIndex = .ok j := by
    decide
  cases p with
  | black => exact hb i
  | white => exact hw i
  | none => exact absurd rfl hp

/-- Witness for C6 at index 0 and player Black. -/
theorem normalize_toIndex_roundtrip_witness :
    (IndexLocation.normalize (⟨0, by decide⟩ : IndexLocation) .black).toIndex
      = .ok (⟨0, by decide⟩ : IndexLocation) :=
  normalize_toIndex_roundtrip ⟨0, by decide⟩ .black (by decide)


/-! ## Claim C2: guard ordering of `check_play` -/

/-- Spec §4.5: "evaluated as an ordered chain of guards (first failing guard
wins)" — the first error in the list is returned, `Ok` when every guard
passes. -/
def guardChain : List (Except Error Unit) → Except Error Unit
  | [] => .ok ()
  | r :: rest =>
    match r with
    | .error e => .error e
    | .ok _ => guardChain rest

/-- Guard 1: the acting player must be the game's current player. -/
def guardOutOfTurn (g : Game) (play : Play) : Except Error Unit :=
  if g.currentPlayer ≠ play.player then .error .playMadeOutOfTurn else .ok ()

/-- Guard 2: while the acting player has a piece on the bar, the origin must
be a bar. -/
def guardBarFilled (g : Game) (play : Play) : Except Error Unit :=
  if 0 < (g.board.bar play.player).count ∧ ¬ play.from_.isBar then
    .error .playMadeWithBarFilled
  else .ok ()

/-- Guard 3 as the claim reads it: the origin may not be the acting player's
*own* rail. -/
def guardFromOwnRail (play : Play) : Except Error Unit :=
  if play.from_ = .rail play.player then .error .playMadeFromRail else .ok ()

/-- Guard 3 as the code implements it: the origin may not be a rail slot of
*either* player. -/
def guardFromAnyRail (play : Play) : Except Error Unit :=
  if play.from_.isRail then .error .playMadeFromRail else .ok ()

/-- Guard 4: the destination may not be a bar. -/
def guardToBar (play : Play) : Except Error Unit :=
  if play.to_.isBar then .error .playMadeToBar else .ok ()

/-- Guard 5 as the claim reads it: a play onto the acting player's *own* rail
requires every piece to be in the home quadrant. -/
def guardBearOffOwn (g : Game) (play : Play) : Except Error Unit :=
  if play.to_ = .rail play.player ∧ ¬ g.board.allInHome play.player then
    .error .invalidBearOff
  else .ok ()

/-- Guard 5 as the code implements it: a play onto *either* rail slot
requires every piece to be in the home quadrant. -/
def guardBearOffAny (g : Game) (play : Play) : Except Error Unit :=
  if play.to_.isRail ∧ ¬ g.board.allInHome play.player then
    .error .invalidBearOff
  else .ok ()

/-- Guard 6: the origin must hold at least one piece. -/
def guardFromEmpty (g : Game) (play : Play) : Except Error Unit :=
  if (g.board.get play.from_).count = 0 then .error .playMadeFromEmptyPoint
  else .ok ()

/-- Guard 7: the origin must be owned by the acting player. -/
def guardFromOpposing (g : Game) (play : Play) : Except Error Unit :=
  if (g.board.get play.from_).player ≠ play.player then
    .error .playMadeWithOpposingPiece
  else .ok ()

/-- Guard 8: the play must move in the acting player's forward direction. -/
def guardDirection (g : Game) (play : Play) : Except Error Unit :=
  if ¬ play.isValidDirection g.board then .error .invalidPlayDirection
  else .ok ()

/-- Guard 9: the destination may hold at most one opposing piece. -/
def guardOntoOpposing (g : Game) (play : Play) : Except Error Unit :=
  if (g.board.get play.to_).player = play.player.opp ∧
      1 < (g.board.get play.to_).count then
    .error .playMadeOntoOpposingPiece
  else .ok ()

/-- Guard 10: the pip distance must be available in the dice multiset, except
for the over-roll bear-off case. -/
def guardPipLength (g : Game) (play : Play) : Except Error Unit :=
  let len := (g.board.get play.to_).distance (g.board.get play.from_)
  if ¬ g.currentRoll.check len then
    match (g.board.get play.from_).location.toIndex with
    | .error _ => .error .panicked
    | .ok index =>
      if ¬ play.to_.isRail ∨ g.board.anyBehind index.val play.player then
        .error (.invalidPlayLength len)
      else
        match g.currentRoll.maxAvail with
        | Option.none => .error .panicked
        | some m => if m < len then .error (.invalidPlayLength len) else .ok ()
  else .ok ()

/-- The §4.5 guard chain exactly as claim C2 words it (guards 3 and 5 fire
only for the acting player's own rail). -/
def specCheckPlayClaim (g : Game) (play : Play) : Except Error Unit :=
  guardChain
    [guardOutOfTurn g play, guardBarFilled g play, guardFromOwnRail play,
     guardToBar play, guardBearOffOwn g play, guardFromEmpty g play,
     guardFromOpposing g play, guardDirection g play, guardOntoOpposing g play,
     guardPipLength g play]

/-- Claim C2's guard chain amended no further than the counterexample forces:
guards 3 and 5 fire for a rail slot of either player, not only the acting
player's own rail. -/
def specCheckPlayAmended (g : Game) (play : Play) : Except Error Unit :=
  guardChain
    [guardOutOfTurn g play, guardBarFilled g play, guardFromAnyRail play,
     guardToBar play, guardBearOffAny g play, guardFromEmpty g play,
     guardFromOpposing g play, guardDirection g play, guardOntoOpposing g play,
     guardPipLength g play]

/-- **C2, counterexample.** The claim's reading of guards 3 and 5 ("own
rail") disagrees with `check_play`: Black playing *from White's rail* is
rejected by the code as play-from-rail while the claim's chain reaches guard
6 (empty origin); Black playing *onto White's rail* without all pieces home
is rejected by the code as illegal bear-off while the claim's chain reaches
guard 8 (wrong direction). -/
theorem checkPlay_guardOrder_cex :
    ((Game.mk .black (Dice.fromPair 1 2) Board.empty).checkPlay
        ⟨.black, .rail .white, .point ⟨0, by decide⟩⟩ =
      .error .playMadeFromRail) ∧
    (specCheckPlayClaim (Game.mk .black (Dice.fromPair 1 2) Board.empty)
        ⟨.black, .rail .white, .point ⟨0, by decide⟩⟩ =
      .error .playMadeFromEmptyPoint) ∧
    ((Game.mk .black (Dice.fromPair 1 2) (Board.empty.setPoint 10 1 .black)).checkPlay
        ⟨.black, .point ⟨10, by decide⟩, .rail .white⟩ =
      .error .invalidBearOff) ∧
    (specCheckPlayClaim
        (Game.mk .black (Dice.fromPair 1 2) (Board.empty.setPoint 10 1 .black))
        ⟨.black, .point ⟨10, by decide⟩, .rail .white⟩ =
      .error .invalidPlayDirection) := by
  refine ⟨by decide, by decide, by decide, by decide⟩

theorem guardChain_err {r : Except Error Unit} {e : Error} (rest : List (Except Error Unit))
    (h : r = .error e) : guardChain (r :: rest) = .error e := by
  rw [h]; rfl

theorem guardChain_pass {r : Except Error Unit} (rest : List (Except Error Unit))
    (h : r = .ok ()) : guardChain (r :: rest) = guardChain rest := by
  rw [h]; rfl

/-- **C2, amended.** `check_play` evaluates the ten guards in exactly the
spec's order and returns the first failing guard's typed error, where guards
3 and 5 read "a rail slot of either player" rather than "the acting player's
own rail". -/
theorem checkPlay_eq_guardChain (g : Game) (play : Play) :
    g.checkPlay play = specCheckPlayAmended g play := by
  rw [specCheckPlayAmended, Game.checkPlay]
  by_cases h1 : g.currentPlayer ≠ play.player
  · rw [if_pos h1, guardChain_err _ (by rw [guardOutOfTurn, if_pos h1])]
  rw [if_neg h1, guardChain_pass _ (by rw [guardOutOfTurn, if_neg h1])]
  by_cases h2 : 0 < (g.board.bar play.player).count ∧ ¬ play.from_.isBar = true
  · rw [if_pos h2, guardChain_err _ (by rw [guardBarFilled, if_pos h2])]
  rw [if_neg h2, guardChain_pass _ (by rw [guardBarFilled, if_neg h2])]
  by_cases h3 : play.from_.isRail = true
  · rw [if_pos h3, guardChain_err _ (by rw [guardFromAnyRail, if_pos h3])]
  rw [if_neg h3, guardChain_pass _ (by rw [guardFromAnyRail, if_neg h3])]
  by_cases h4 : play.to_.isBar = true
  · rw [if_pos h4, guardChain_err _ (by rw [guardToBar, if_pos h4])]
  rw [if_neg h4, guardChain_pass _ (by rw [guardToBar, if_neg h4])]
  by_cases h5 : play.to_.isRail = true ∧ ¬ g.board.allInHome play.player = true
  · rw [if_pos h5, guardChain_err _ (by rw [guardBearOffAny, if_pos h5])]
  rw [if_neg h5, guardChain_pass _ (by rw [guardBearOffAny, if_neg h5])]
  by_cases h6 : (g.board.get play.from_).count = 0
  · rw [if_pos h6, guardChain_err _ (by rw [guardFromEmpty, if_pos h6])]
  rw [if_neg h6, guardChain_pass _ (by rw [guardFromEmpty, if_neg h6])]
  by_cases h7 : (g.board.get play.from_).player ≠ play.player
  · rw [if_pos h7, guardChain_err _ (by rw [guardFromOpposing, if_pos h7])]
  rw [if_neg h7, guardChain_pass _ (by rw [guardFromOpposing, if_neg h7])]
  by_cases h8 : ¬ play.isValidDirection g.board = true
  · rw [if_pos h8, guardChain_err _ (by rw [guardDirection, if_pos h8])]
  rw [if_neg h8, guardChain_pass _ (by rw [guardDirection, if_neg h8])]
  by_cases h9 : (g.board.get play.to_).player = play.player.opp ∧ 1 < (g.board.get play.to_).count
  · rw [if_pos h9, guardChain_err _ (by rw [guardOntoOpposing, if_pos h9])]
  rw [if_neg h9, guardChain_pass _ (by rw [guardOntoOpposing, if_neg h9])]
  rw [show guardChain [guardPipLength g play] = guardPipLength g play from ?_]
  · rw [guardPipLength]
  · cases hp : guardPipLength g play with
    | error e => rfl
    | ok u => cases u; rfl

/-! ## Well-formedness toolkit and the `check_play` inversion lemma -/

theorem Board.wf_points_length {b : Board} (h : b.Wf) : b.points.length = 24 :=
  h.1

theorem Board.get_point_location {b : Board} (h : b.Wf) (i : IndexLocation) :
    (b.get (.point i)).location = i.val + 1 :=
  h.2.1 i

theorem Board.get_location_le {b : Board} (h : b.Wf) {r : PositionRef}
    (hr : r.Wf) : (b.get r).location ≤ 25 := by
  cases r with
  | bar p =>
    cases p with
    | black => simp [Board.get, Board.bar, h.2.2.1]
    | white => simp [Board.get, Board.bar, h.2.2.2.2.1]
    | none => exact absurd rfl hr
  | rail p =>
    cases p with
    | black => simp [Board.get, Board.rail, h.2.2.2.2.2.2.1]
    | white => simp [Board.get, Board.rail, h.2.2.2.2.2.2.2.2.1]
    | none => exact absurd rfl hr
  | point i =>
    rw [Board.get_point_location h i]
    exact Nat.add_le_add_right (Nat.le_of_lt i.isLt) 1

/-- The facts `check_play` establishes when it returns `Ok(())`: each guard
condition in order, and the final pip-length analysis (either the exact
length is available, or the over-roll bear-off conditions hold). -/
structure CheckOkFacts (g : Game) (play : Play) : Prop where
  turnOf : g.currentPlayer = play.player
  barCleared : ¬(0 < (g.board.bar play.player).count ∧ ¬ play.from_.isBar)
  notFromRail : ¬ play.from_.isRail
  notToBar : ¬ play.to_.isBar
  bearOffOk : ¬(play.to_.isRail ∧ ¬ g.board.allInHome play.player)
  fromOccupied : ¬ (g.board.get play.from_).count = 0
  fromOwned : ¬ (g.board.get play.from_).player ≠ play.player
  direction : ¬ ¬ play.isValidDirection g.board
  noStack : ¬((g.board.get play.to_).player = play.player.opp ∧
      1 < (g.board.get play.to_).count)
  length :
    g.currentRoll.check
        ((g.board.get play.to_).distance (g.board.get play.from_)) = true ∨
      (g.currentRoll.check
          ((g.board.get play.to_).distance (g.board.get play.from_)) = false ∧
        play.to_.isRail = true ∧
        ∃ i : IndexLocation,
          (g.board.get play.from_).location.toIndex = .ok i ∧
          g.board.anyBehind i.val play.player = false ∧
          ∃ m, g.currentRoll.maxAvail = some m ∧
            (g.board.get play.to_).distance (g.board.get play.from_) ≤ m)

/-- Inversion for `Game::check_play`: it accepts exactly when every guard
passes and the pip-length analysis succeeds. -/
theorem checkPlay_ok_iff (g : Game) (play : Play) :
    g.checkPlay play = .ok () ↔ CheckOkFacts g play := by
  rw [Game.checkPlay]
  by_cases h1 : g.currentPlayer ≠ play.player
  · rw [if_pos h1]
    exact ⟨fun h => Except.noConfusion h, fun c => absurd c.turnOf h1⟩
  rw [if_neg h1]
  replace h1 := not_not.mp h1
  by_cases h2 : 0 < (g.board.bar play.player).count ∧ ¬ play.from_.isBar
  · rw [if_pos h2]
    exact ⟨fun h => Except.noConfusion h, fun c => absurd h2 c.barCleared⟩
  rw [if_neg h2]
  by_cases h3 : play.from_.isRail = true
  · rw [if_pos h3]
    exact ⟨fun h => Except.noConfusion h, fun c => absurd h3 c.notFromRail⟩
  rw [if_neg h3]
  by_cases h4 : play.to_.isBar = true
  · rw [if_pos h4]
    exact ⟨fun h => Except.noConfusion h, fun c => absurd h4 c.notToBar⟩
  rw [if_neg h4]
  by_cases h5 : play.to_.isRail ∧ ¬ g.board.allInHome play.player
  · rw [if_pos h5]
    exact ⟨fun h => Except.noConfusion h, fun c => absurd h5 c.bearOffOk⟩
  rw [if_neg h5]
  by_cases h6 : (g.board.get play.from_).count = 0
  · rw [if_pos h6]
    exact ⟨fun h => Except.noConfusion h, fun c => absurd h6 c.fromOccupied⟩
  rw [if_neg h6]
  by_cases h7 : (g.board.get play.from_).player ≠ play.player
  · rw [if_pos h7]
    exact ⟨fun h => Except.noConfusion h, fun c => absurd h7 c.fromOwned⟩
  rw [if_neg h7]
  by_cases h8 : ¬ play.isValidDirection g.board
  · rw [if_pos h8]
    exact ⟨fun h => Except.noConfusion h, fun c => absurd h8 c.direction⟩
  rw [if_neg h8]
  by_cases h9 : (g.board.get play.to_).player = play.player.opp ∧
      1 < (g.board.get play.to_).count
  · rw [if_pos h9]
    exact ⟨fun h => Except.noConfusion h, fun c => absurd h9 c.noStack⟩
  rw [if_neg h9]
  by_cases hlen : g.currentRoll.check
      ((g.board.get play.to_).distance (g.board.get play.from_)) = true
  · rw [if_neg (by simp [hlen])]
    exact ⟨fun _ => ⟨h1, h2, h3, h4, h5, h6, h7, h8, h9, Or.inl hlen⟩,
      fun _ => rfl⟩
  rw [if_pos (by simpa using hlen)]
  replace hlen : g.currentRoll.check
      ((g.board.get play.to_).distance (g.board.get play.from_)) = false := by
    simpa using hlen
  split
  next e heq =>
    constructor
    · intro h; exact Except.noConfusion h
    · rintro ⟨_, _, _, _, _, _, _, _, _, hl⟩
      rcases hl with hl | ⟨_, _, i, hi, _⟩
      · rw [hl] at hlen; exact Bool.noConfusion hlen
      · rw [heq] at hi; exact Except.noConfusion hi
  next i heq =>
    by_cases hrb : ¬ play.to_.isRail ∨ g.board.anyBehind i.val play.player
    · rw [if_pos hrb]
      constructor
      · intro h; exact Except.noConfusion h
      · rintro ⟨_, _, _, _, _, _, _, _, _, hl⟩
        rcases hl with hl | ⟨_, hrail, j, hj, hbehind, _⟩
        · rw [hl] at hlen; exact Bool.noConfusion hlen
        · rw [heq] at hj
          cases hj
          rcases hrb with hnr | hb
          · exact absurd hrail hnr
          · rw [hbehind] at hb; exact Bool.noConfusion hb
    · rw [if_neg hrb]
      push_neg at hrb
      obtain ⟨hrail, hbehind⟩ := hrb
      replace hrail : play.to_.isRail = true := by simpa using hrail
      replace hbehind : g.board.anyBehind i.val play.player = false := by
        simpa using hbehind
      split
      next hmax =>
        constructor
        · intro h; exact Except.noConfusion h
        · rintro ⟨_, _, _, _, _, _, _, _, _, hl⟩
          rcases hl with hl | ⟨_, _, j, hj, _, m, hm, _⟩
          · rw [hl] at hlen; exact Bool.noConfusion hlen
          · rw [hmax] at hm; exact Option.noConfusion hm
      next m hmax =>
        by_cases hlt : m <
            (g.board.get play.to_).distance (g.board.get play.from_)
        · rw [if_pos hlt]
          constructor
          · intro h; exact Except.noConfusion h
          · rintro ⟨_, _, _, _, _, _, _, _, _, hl⟩
            rcases hl with hl | ⟨_, _, j, hj, _, m', hm', hle⟩
            · rw [hl] at hlen; exact Bool.noConfusion hlen
            · rw [hmax] at hm'
              cases hm'
              omega
        · rw [if_neg hlt]
          constructor
          · intro _
            exact ⟨h1, h2, h3, h4, h5, h6, h7, h8, h9,
              Or.inr ⟨hlen, hrail, i, heq, hbehind, m, hmax, by omega⟩⟩
          · intro _; rfl

/-- On a well-formed board, a forward play whose destination is a rail can
only target the acting player's own rail: the opponent's rail sits at the far
end of the acting player's direction of travel. -/
theorem direction_rail_own {g : Game} {play : Play} (hwf : g.board.Wf)
    (hfrom : play.from_.Wf) (hto : play.to_.Wf)
    (hdir : play.isValidDirection g.board = true)
    (hrail : play.to_.isRail = true) : play.to_ = .rail play.player := by
  have hfle : (g.board.get play.from_).location ≤ 25 :=
    Board.get_location_le hwf hfrom
  cases hpto : play.to_ with
  | bar q => rw [hpto] at hrail; exact Bool.noConfusion hrail
  | point i => rw [hpto] at hrail; exact Bool.noConfusion hrail
  | rail q =>
    rw [hpto] at hto
    cases q with
    | none => exact absurd rfl hto
    | black =>
      cases hpp : play.player with
      | black => rfl
      | none => rw [Play.isValidDirection, hpp] at hdir; exact Bool.noConfusion hdir
      | white =>
        rw [Play.isValidDirection, hpp, hpto] at hdir
        have : (g.board.get (.rail .black)).location = 0 := by
          simp [Board.get, Board.rail, hwf.2.2.2.2.2.2.1]
        rw [this] at hdir
        simp at hdir
    | white =>
      cases hpp : play.player with
      | white => rfl
      | none => rw [Play.isValidDirection, hpp] at hdir; exact Bool.noConfusion hdir
      | black =>
        rw [Play.isValidDirection, hpp, hpto] at hdir
        have h25 : (g.board.get (.rail .white)).location = 25 := by
          simp [Board.get, Board.rail, hwf.2.2.2.2.2.2.2.2.1]
        rw [h25] at hdir
        simp only [decide_eq_true_eq] at hdir
        exact absurd hdir (Nat.not_lt.mpr hfle)

/-- The dice multiset after `make_play`: the exact length when available,
otherwise the maximum available length. -/
theorem Game.makePlay_currentRoll (g : Game) (play : Play) :
    (g.makePlay play).currentRoll =
      (if g.currentRoll.check
          ((g.board.get play.to_).distance (g.board.get play.from_)) then
        g.currentRoll.remove
          ((g.board.get play.to_).distance (g.board.get play.from_))
      else g.currentRoll.remove ((g.currentRoll.maxAvail).getD 0)) := rfl

/-! ## Claim C3: over-roll bear-off -/

/-- **C3.** In a validated context (a well-formed board, sentinel-free play
refs, and §4.5 guards 1–9 all passing), a play whose pip distance is *not*
available in the dice multiset is accepted by `check_play` iff the
destination is the acting player's own rail, no piece of that player remains
farther from home than the origin, and the distance does not exceed the
maximum available die; applying such a play consumes the maximum available
die, while a play whose exact distance is available consumes exactly that
length. -/
theorem overRoll_bearOff (g : Game) (play : Play)
    (hwf : g.board.Wf) (hfrom : play.from_.Wf) (hto : play.to_.Wf)
    (h1 : g.currentPlayer = play.player)
    (h2 : ¬(0 < (g.board.bar play.player).count ∧ ¬ play.from_.isBar))
    (h3 : ¬ play.from_.isRail)
    (h4 : ¬ play.to_.isBar)
    (h5 : ¬(play.to_.isRail ∧ ¬ g.board.allInHome play.player))
    (h6 : ¬ (g.board.get play.from_).count = 0)
    (h7 : (g.board.get play.from_).player = play.player)
    (h8 : play.isValidDirection g.board = true)
    (h9 : ¬((g.board.get play.to_).player = play.player.opp ∧
        1 < (g.board.get play.to_).count)) :
    (g.currentRoll.check
        ((g.board.get play.to_).distance (g.board.get play.from_)) = false →
      ((g.checkPlay play = .ok ()) ↔
        (play.to_ = .rail play.player ∧
          (∃ i : IndexLocation,
            (g.board.get play.from_).location.toIndex = .ok i ∧
            g.board.anyBehind i.val play.player = false) ∧
          (∃ m, g.currentRoll.maxAvail = some m ∧
            (g.board.get play.to_).distance (g.board.get play.from_) ≤ m))) ∧
      (∀ m, g.currentRoll.maxAvail = some m → g.checkPlay play = .ok () →
        (g.makePlay play).currentRoll = g.currentRoll.remove m)) ∧
    (g.currentRoll.check
        ((g.board.get play.to_).distance (g.board.get play.from_)) = true →
      (g.makePlay play).currentRoll =
        g.currentRoll.remove
          ((g.board.get play.to_).distance (g.board.get play.from_))) := by
  refine ⟨fun hlen => ⟨?_, ?_⟩, fun hlen => ?_⟩
  · constructor
    · intro hok
      obtain ⟨_, _, _, _, _, _, _, _, _, hl⟩ := (checkPlay_ok_iff g play).mp hok
      rcases hl with hl | ⟨_, hrail, i, hi, hb, m, hm, hle⟩
      · rw [hl] at hlen; exact Bool.noConfusion hlen
      · exact ⟨direction_rail_own hwf hfrom hto h8 hrail, ⟨i, hi, hb⟩,
          ⟨m, hm, hle⟩⟩
    · rintro ⟨hrailown, ⟨i, hi, hb⟩, ⟨m, hm, hle⟩⟩
      refine (checkPlay_ok_iff g play).mpr
        ⟨h1, h2, h3, h4, h5, h6, fun hne => hne h7, fun hn => hn h8, h9,
          Or.inr ⟨hlen, by rw [hrailown]; rfl, i, hi, hb, m, hm, hle⟩⟩
  · intro m hm _
    rw [Game.makePlay_currentRoll, if_neg (by simp [hlen]), hm]
    rfl
  · rw [Game.makePlay_currentRoll, if_pos (by simp [hlen])]

/-- Witness for C3: Black with a single piece on point 4 and a double six
rolled; bearing off from point 4 (pip distance 5, unavailable) is accepted
and consumes a 6, the maximum available die. -/
theorem overRoll_bearOff_witness :
    (Game.mk .black (Dice.fromPair 6 6)
        (Board.empty.setPoint 4 1 .black)).checkPlay
      ⟨.black, .point ⟨4, by decide⟩, .rail .black⟩ = .ok () ∧
    ((Game.mk .black (Dice.fromPair 6 6)
        (Board.empty.setPoint 4 1 .black)).makePlay
      ⟨.black, .point ⟨4, by decide⟩, .rail .black⟩).currentRoll =
      (Dice.fromPair 6 6).remove 6 := by
  have h := overRoll_bearOff
    (Game.mk .black (Dice.fromPair 6 6) (Board.empty.setPoint 4 1 .black))
    ⟨.black, .point ⟨4, by decide⟩, .rail .black⟩
    (by decide) (by decide) (by decide) (by decide) (by decide) (by decide)
    (by decide) (by decide) (by decide) (by decide) (by decide) (by decide)
  have hok := (h.1 (by decide)).1.mpr
    ⟨by decide, ⟨⟨4, by decide⟩, by decide, by decide⟩, ⟨6, by decide, by decide⟩⟩
  exact ⟨hok, (h.1 (by decide)).2 6 (by decide) hok⟩

/-! ## Cell-level read/write lemmas for `Board.set` -/

theorem Board.points_length_set (b : Board) (r : PositionRef) (v : Position) :
    (b.set r v).points.length = b.points.length := by
  cases r with
  | bar p => cases p <;> rfl
  | rail p => cases p <;> rfl
  | point i => simp [Board.set]

theorem Board.get_set_same {b : Board} (hlen : b.points.length = 24)
    {r : PositionRef} (hr : r.Wf) (v : Position) : (b.set r v).get r = v := by
  cases r with
  | bar p =>
    cases p with
    | black => rfl
    | white => rfl
    | none => exact absurd rfl hr
  | rail p =>
    cases p with
    | black => rfl
    | white => rfl
    | none => exact absurd rfl hr
  | point i =>
    have hi : i.val < b.points.length := by rw [hlen]; exact i.isLt
    simp [Board.set, Board.get, Board.point, List.getD_eq_getElem?_getD,
      List.getElem?_set_eq_of_lt v hi]

theorem Board.get_set_ne {b : Board} {r r' : PositionRef} (hne : r' ≠ r)
    (v : Position) : (b.set r v).get r' = b.get r' := by
  cases r with
  | bar p =>
    cases p with
    | none => rfl
    | black =>
      cases r' with
      | bar q => cases q with
        | black => exact absurd rfl hne
        | white => rfl
        | none => rfl
      | rail q => cases q <;> rfl
      | point j => rfl
    | white =>
      cases r' with
      | bar q => cases q with
        | white => exact absurd rfl hne
        | black => rfl
        | none => rfl
      | rail q => cases q <;> rfl
      | point j => rfl
  | rail p =>
    cases p with
    | none => rfl
    | black =>
      cases r' with
      | rail q => cases q with
        | black => exact absurd rfl hne
        | white => rfl
        | none => rfl
      | bar q => cases q <;> rfl
      | point j => rfl
    | white =>
      cases r' with
      | rail q => cases q with
        | white => exact absurd rfl hne
        | black => rfl
        | none => rfl
      | bar q => cases q <;> rfl
      | point j => rfl
  | point i =>
    cases r' with
    | bar q => cases q <;> rfl
    | rail q => cases q <;> rfl
    | point j =>
      have hij : i.val ≠ j.val := by
        intro h
        exact hne (by rw [show j = i from Fin.ext h.symm])
      simp [Board.set, Board.get, Board.point, List.getD_eq_getElem?_getD,
        List.getElem?_set_ne hij]

theorem Board.get_modifyRef_same {b : Board} (hlen : b.points.length = 24)
    {r : PositionRef} (hr : r.Wf) (f : Position → Position) :
    (b.modifyRef r f).get r = f (b.get r) :=
  Board.get_set_same hlen hr _

theorem Board.get_modifyRef_ne {b : Board} {r r' : PositionRef} (hne : r' ≠ r)
    (f : Position → Position) : (b.modifyRef r f).get r' = b.get r' :=
  Board.get_set_ne hne _

theorem Board.points_length_modifyRef (b : Board) (r : PositionRef)
    (f : Position → Position) :
    (b.modifyRef r f).points.length = b.points.length :=
  Board.points_length_set b r _

/-- A passing direction guard pins the acting player to Black or White. -/
theorem isValidDirection_player_ne_none {play : Play} {b : Board}
    (h : play.isValidDirection b = true) : play.player ≠ .none := by
  intro hp
  rw [Play.isValidDirection, hp] at h
  exact Bool.noConfusion h

theorem Player.opp_ne_self {p : Player} (hp : p ≠ .none) : p.opp ≠ p := by
  cases p with
  | black => intro h; exact Player.noConfusion h
  | white => intro h; exact Player.noConfusion h
  | none => exact absurd rfl hp

theorem Board.get_rail_player {b : Board} (h : b.Wf) {p : Player}
    (hp : p ≠ .none) : (b.get (.rail p)).player = p := by
  cases p with
  | black => exact h.2.2.2.2.2.2.2.1
  | white => exact h.2.2.2.2.2.2.2.2.2
  | none => exact absurd rfl hp

theorem Board.get_bar_player {b : Board} (h : b.Wf) {p : Player}
    (hp : p ≠ .none) : (b.get (.bar p)).player = p := by
  cases p with
  | black => exact h.2.2.2.1
  | white => exact h.2.2.2.2.2.1
  | none => exact absurd rfl hp

/-- A play passing the direction guard cannot have identical origin and
destination refs. -/
theorem isValidDirection_from_ne_to {play : Play} {b : Board}
    (h : play.isValidDirection b = true) : play.from_ ≠ play.to_ := by
  intro heq
  rw [Play.isValidDirection] at h
  cases hp : play.player with
  | none => rw [hp] at h; exact Bool.noConfusion h
  | black =>
    rw [hp, heq] at h
    simp only [decide_eq_true_eq] at h
    exact Nat.lt_irrefl _ h
  | white =>
    rw [hp, heq] at h
    simp only [decide_eq_true_eq] at h
    exact Nat.lt_irrefl _ h

/-! ## Claim C5: hit mechanics -/

/-- **C5.** For a validated play (well-formed board, sentinel-free refs)
whose destination holds exactly one opposing piece, `make_play` increments
the opposing player's bar count by exactly one, leaves the destination (a
point) holding exactly one piece owned by the mover, removes one piece from
the origin, and changes no other slot. -/
theorem hit_mechanics (g : Game) (play : Play)
    (hwf : g.board.Wf) (hfrom : play.from_.Wf) (hto : play.to_.Wf)
    (hok : g.checkPlay play = .ok ())
    (hhitP : (g.board.get play.to_).player = play.player.opp)
    (hhitC : (g.board.get play.to_).count = 1) :
    ∃ j : IndexLocation, play.to_ = .point j ∧
      (g.makePlay play).board.get play.to_ =
        ⟨(g.board.get play.to_).location, 1, play.player⟩ ∧
      ((g.makePlay play).board.bar play.player.opp).count =
        (g.board.bar play.player.opp).count + 1 ∧
      ((g.makePlay play).board.get play.from_).count + 1 =
        (g.board.get play.from_).count ∧
      (∀ r : PositionRef, r ≠ play.from_ → r ≠ play.to_ →
        r ≠ .bar play.player.opp →
        (g.makePlay play).board.get r = g.board.get r) := by
  have facts := (checkPlay_ok_iff g play).mp hok
  have hdir : play.isValidDirection g.board = true := not_not.mp facts.direction
  have hp : play.player ≠ .none := isValidDirection_player_ne_none hdir
  have hpo : play.player.opp ≠ .none := by
    cases hq : play.player with
    | black => exact fun h => Player.noConfusion h
    | white => exact fun h => Player.noConfusion h
    | none => exact absurd hq hp
  have hfromto : play.from_ ≠ play.to_ := isValidDirection_from_ne_to hdir
  -- the destination must be a point
  obtain ⟨j, hpto⟩ : ∃ j : IndexLocation, play.to_ = .point j := by
    cases hpt : play.to_ with
    | bar q => exact absurd (by rw [hpt]; rfl) facts.notToBar
    | point j => exact ⟨j, rfl⟩
    | rail q =>
      have hown : play.to_ = .rail play.player :=
        direction_rail_own hwf hfrom hto hdir (by rw [hpt]; rfl)
      have : (g.board.get (.rail play.player)).player = play.player :=
        Board.get_rail_player hwf hp
      rw [hown] at hhitP
      rw [this] at hhitP
      exact absurd hhitP.symm (Player.opp_ne_self hp)
  -- the origin is not the opponent's bar
  have hfrombar : play.from_ ≠ .bar play.player.opp := by
    cases hpf : play.from_ with
    | point i => exact fun h => PositionRef.noConfusion h
    | rail q => exact absurd (by rw [hpf]; rfl) facts.notFromRail
    | bar q =>
      intro heq
      injection heq with hq
      have hqn : q ≠ Player.none := by rw [hpf] at hfrom; exact hfrom
      have howner : (g.board.get (.bar q)).player = q :=
        Board.get_bar_player hwf hqn
      have h7 : (g.board.get play.from_).player = play.player :=
        not_ne_iff.mp facts.fromOwned
      rw [hpf, howner] at h7
      rw [hq] at h7
      exact absurd h7 (Player.opp_ne_self hp)
  -- the destination is not the opponent's bar
  have htobar : play.to_ ≠ .bar play.player.opp := by
    rw [hpto]; exact fun h => PositionRef.noConfusion h
  have hl0 : g.board.points.length = 24 := hwf.1
  have hcond : (g.board.get play.to_).player = play.player.opp ∧
      (g.board.get play.to_).count = 1 := ⟨hhitP, hhitC⟩
  have hboard : (g.makePlay play).board =
      (let fromPos := g.board.get play.from_
       let toPos := g.board.get play.to_
       let b1 :=
         if toPos.player = play.player.opp ∧ toPos.count = 1 then
           let hitOwner := toPos.player
           let cleared := g.board.modifyRef play.to_
             fun t => { t with count := 0, player := .none }
           cleared.modifyBar hitOwner fun bar => { bar with count := bar.count + 1 }
         else g.board
       let b2 := b1.modifyRef play.from_ fun f => { f with count := f.count - 1 }
       let b3 := b2.modifyRef play.to_
         fun t => { t with player := play.player, count := t.count + 1 }
       if (b3.get play.from_).count = 0 ∧ ¬ play.from_.isBar then
         b3.modifyRef play.from_ fun f => { f with player := .none }
       else b3) := by
    show (g.makePlay play).board = _
    rw [Game.makePlay]
  simp only [] at hboard
  rw [if_pos hcond] at hboard
  simp only [Board.modifyBar, hhitP] at hboard
  set cleared := g.board.modifyRef play.to_
    (fun t => { t with count := 0, player := .none }) with hcleared
  set B1 := cleared.modifyRef (.bar play.player.opp)
    (fun bar => { bar with count := bar.count + 1 }) with hB1
  set B2 := B1.modifyRef play.from_
    (fun f => { f with count := f.count - 1 }) with hB2
  set B3 := B2.modifyRef play.to_
    (fun t => { t with player := play.player, count := t.count + 1 }) with hB3
  have hlc : cleared.points.length = 24 := by
    rw [hcleared, Board.points_length_modifyRef]; exact hl0
  have hl1 : B1.points.length = 24 := by
    rw [hB1, Board.points_length_modifyRef]; exact hlc
  have hl2 : B2.points.length = 24 := by
    rw [hB2, Board.points_length_modifyRef]; exact hl1
  -- values of the four relevant cells in B3
  have hgc_to : cleared.get play.to_ =
      ⟨(g.board.get play.to_).location, 0, .none⟩ := by
    rw [hcleared, Board.get_modifyRef_same hl0 hto]
  have hgc_bar : cleared.get (.bar play.player.opp) =
      g.board.get (.bar play.player.opp) := by
    rw [hcleared, Board.get_modifyRef_ne htobar.symm]
  have hgc_from : cleared.get play.from_ = g.board.get play.from_ := by
    rw [hcleared, Board.get_modifyRef_ne hfromto]
  have hg1_to : B1.get play.to_ = ⟨(g.board.get play.to_).location, 0, .none⟩ := by
    rw [hB1, Board.get_modifyRef_ne htobar, hgc_to]
  have hg1_bar : (B1.get (.bar play.player.opp)).count =
      (g.board.get (.bar play.player.opp)).count + 1 := by
    rw [hB1, Board.get_modifyRef_same hlc (show (PositionRef.bar play.player.opp).Wf from hpo), hgc_bar]
  have hg1_from : B1.get play.from_ = g.board.get play.from_ := by
    rw [hB1, Board.get_modifyRef_ne hfrombar, hgc_from]
  have hg2_to : B2.get play.to_ = ⟨(g.board.get play.to_).location, 0, .none⟩ := by
    rw [hB2, Board.get_modifyRef_ne hfromto.symm, hg1_to]
  have hg2_bar : (B2.get (.bar play.player.opp)).count =
      (g.board.get (.bar play.player.opp)).count + 1 := by
    rw [hB2, Board.get_modifyRef_ne hfrombar.symm, hg1_bar]
  have hg2_from : (B2.get play.from_).count =
      (g.board.get play.from_).count - 1 := by
    rw [hB2, Board.get_modifyRef_same hl1 hfrom, hg1_from]
  have hg3_to : B3.get play.to_ =
      ⟨(g.board.get play.to_).location, 1, play.player⟩ := by
    rw [hB3, Board.get_modifyRef_same hl2 hto, hg2_to]
  have hg3_bar : (B3.get (.bar play.player.opp)).count =
      (g.board.get (.bar play.player.opp)).count + 1 := by
    rw [hB3, Board.get_modifyRef_ne htobar.symm, hg2_bar]
  have hg3_from : (B3.get play.from_).count =
      (g.board.get play.from_).count - 1 := by
    rw [hB3, Board.get_modifyRef_ne hfromto, hg2_from]
  have hcnt : (g.board.get play.from_).count ≠ 0 := facts.fromOccupied
  refine ⟨j, hpto, ?_, ?_, ?_, ?_⟩
  · rw [hboard]
    by_cases hfin : (B3.get play.from_).count = 0 ∧ ¬ play.from_.isBar
    · rw [if_pos hfin, Board.get_modifyRef_ne hfromto.symm, hg3_to]
    · rw [if_neg hfin, hg3_to]
  · show ((g.makePlay play).board.get (.bar play.player.opp)).count = _
    rw [hboard]
    by_cases hfin : (B3.get play.from_).count = 0 ∧ ¬ play.from_.isBar
    · rw [if_pos hfin, Board.get_modifyRef_ne hfrombar.symm, hg3_bar]; rfl
    · rw [if_neg hfin, hg3_bar]; rfl
  · rw [hboard]
    by_cases hfin : (B3.get play.from_).count = 0 ∧ ¬ play.from_.isBar
    · rw [if_pos hfin]
      have : ((B3.modifyRef play.from_
          (fun f => { f with player := .none })).get play.from_).count =
          (B3.get play.from_).count := by
        rw [Board.get_modifyRef_same (by rw [hB3, Board.points_length_modifyRef]; exact hl2) hfrom]
      rw [this, hg3_from]
      omega
    · rw [if_neg hfin, hg3_from]
      omega
  · intro r hrf hrt hrb
    rw [hboard]
    by_cases hfin : (B3.get play.from_).count = 0 ∧ ¬ play.from_.isBar
    · rw [if_pos hfin, Board.get_modifyRef_ne hrf, hB3,
        Board.get_modifyRef_ne hrt, hB2, Board.get_modifyRef_ne hrf, hB1,
        Board.get_modifyRef_ne hrb, hcleared, Board.get_modifyRef_ne hrt]
    · rw [if_neg hfin, hB3, Board.get_modifyRef_ne hrt, hB2,
        Board.get_modifyRef_ne hrf, hB1, Board.get_modifyRef_ne hrb,
        hcleared, Board.get_modifyRef_ne hrt]

/-- Witness for C5: White plays 0→2 onto a lone Black piece; the Black bar
gains one piece, point 2 ends with exactly one White piece, point 0 loses its
piece, and every other slot is untouched. -/
theorem hit_mechanics_witness :
    ∃ j : IndexLocation,
      (Play.mk .white (.point ⟨0, by decide⟩) (.point ⟨2, by decide⟩)).to_ =
        .point j ∧
      ((Game.mk .white (Dice.fromPair 2 5)
          ((Board.empty.setPoint 0 1 .white).setPoint 2 1 .black)).makePlay
        (Play.mk .white (.point ⟨0, by decide⟩) (.point ⟨2, by decide⟩))).board.get
          (Play.mk .white (.point ⟨0, by decide⟩) (.point ⟨2, by decide⟩)).to_ =
        ⟨(((Board.empty.setPoint 0 1 .white).setPoint 2 1 .black).get
            (Play.mk .white (.point ⟨0, by decide⟩) (.point ⟨2, by decide⟩)).to_).location,
          1, (Play.mk .white (.point ⟨0, by decide⟩) (.point ⟨2, by decide⟩)).player⟩ ∧
      (((Game.mk .white (Dice.fromPair 2 5)
          ((Board.empty.setPoint 0 1 .white).setPoint 2 1 .black)).makePlay
        (Play.mk .white (.point ⟨0, by decide⟩) (.point ⟨2, by decide⟩))).board.bar
          (Play.mk .white (.point ⟨0, by decide⟩) (.point ⟨2, by decide⟩)).player.opp).count =
        (((Board.empty.setPoint 0 1 .white).setPoint 2 1 .black).bar
          (Play.mk .white (.point ⟨0, by decide⟩) (.point ⟨2, by decide⟩)).player.opp).count + 1 ∧
      (((Game.mk .white (Dice.fromPair 2 5)
          ((Board.empty.setPoint 0 1 .white).setPoint 2 1 .black)).makePlay
        (Play.mk .white (.point ⟨0, by decide⟩) (.point ⟨2, by decide⟩))).board.get
          (Play.mk .white (.point ⟨0, by decide⟩) (.point ⟨2, by decide⟩)).from_).count + 1 =
        (((Board.empty.setPoint 0 1 .white).setPoint 2 1 .black).get
          (Play.mk .white (.point ⟨0, by decide⟩) (.point ⟨2, by decide⟩)).from_).count ∧
      (∀ r : PositionRef,
        r ≠ (Play.mk .white (.point ⟨0, by decide⟩) (.point ⟨2, by decide⟩)).from_ →
        r ≠ (Play.mk .white (.point ⟨0, by decide⟩) (.point ⟨2, by decide⟩)).to_ →
        r ≠ .bar (Play.mk .white (.point ⟨0, by decide⟩) (.point ⟨2, by decide⟩)).player.opp →
        ((Game.mk .white (Dice.fromPair 2 5)
            ((Board.empty.setPoint 0 1 .white).setPoint 2 1 .black)).makePlay
          (Play.mk .white (.point ⟨0, by decide⟩) (.point ⟨2, by decide⟩))).board.get r =
          ((Board.empty.setPoint 0 1 .white).setPoint 2 1 .black).get r) :=
  hit_mechanics
    (Game.mk .white (Dice.fromPair 2 5)
      ((Board.empty.setPoint 0 1 .white).setPoint 2 1 .black))
    (Play.mk .white (.point ⟨0, by decide⟩) (.point ⟨2, by decide⟩))
    (by decide) (by decide) (by decide) (by decide) (by decide) (by decide)

/-! ## A cell-level characterization of `make_play` -/

/-- A validated play's origin is the acting player's bar or a point. -/
theorem checkOk_from_shape {g : Game} {play : Play} (hwf : g.board.Wf)
    (hfrom : play.from_.Wf) (hok : g.checkPlay play = .ok ()) :
    play.from_ = .bar play.player ∨ ∃ i : IndexLocation, play.from_ = .point i := by
  have facts := (checkPlay_ok_iff g play).mp hok
  have hdir : play.isValidDirection g.board = true := not_not.mp facts.direction
  have hp : play.player ≠ .none := isValidDirection_player_ne_none hdir
  cases hpf : play.from_ with
  | point i => exact Or.inr ⟨i, rfl⟩
  | rail q => exact absurd (by rw [hpf]; rfl) facts.notFromRail
  | bar q =>
    left
    have hqn : q ≠ Player.none := by rw [hpf] at hfrom; exact hfrom
    have howner : (g.board.get (.bar q)).player = q := Board.get_bar_player hwf hqn
    have h7 : (g.board.get play.from_).player = play.player :=
      not_ne_iff.mp facts.fromOwned
    rw [hpf, howner] at h7
    rw [h7]

/-- A validated play's destination is the acting player's rail or a point. -/
theorem checkOk_to_shape {g : Game} {play : Play} (hwf : g.board.Wf)
    (hfrom : play.from_.Wf) (hto : play.to_.Wf)
    (hok : g.checkPlay play = .ok ()) :
    play.to_ = .rail play.player ∨ ∃ j : IndexLocation, play.to_ = .point j := by
  have facts := (checkPlay_ok_iff g play).mp hok
  have hdir : play.isValidDirection g.board = true := not_not.mp facts.direction
  cases hpt : play.to_ with
  | point j => exact Or.inr ⟨j, rfl⟩
  | bar q => exact absurd (by rw [hpt]; rfl) facts.notToBar
  | rail q =>
    have h := direction_rail_own hwf hfrom hto hdir (by rw [hpt]; rfl)
    rw [hpt] at h
    exact Or.inl h

/-- Full cell-level description of the board after `make_play` on a validated
play: the origin loses one piece (and its owner when a non-bar origin
empties), a hit destination becomes a lone piece of the mover with the
opposing bar incremented, a non-hit destination gains one piece of the mover,
and every other slot is untouched. -/
theorem makePlay_get_spec (g : Game) (play : Play) (hwf : g.board.Wf)
    (hfrom : play.from_.Wf) (hto : play.to_.Wf)
    (hok : g.checkPlay play = .ok ()) :
    (g.makePlay play).board.points.length = 24 ∧
    (g.makePlay play).board.get play.from_ =
      (if (g.board.get play.from_).count - 1 = 0 ∧ ¬ play.from_.isBar then
        ⟨(g.board.get play.from_).location,
          (g.board.get play.from_).count - 1, .none⟩
      else
        ⟨(g.board.get play.from_).location,
          (g.board.get play.from_).count - 1,
          (g.board.get play.from_).player⟩) ∧
    (((g.board.get play.to_).player = play.player.opp ∧
        (g.board.get play.to_).count = 1) →
      ((g.makePlay play).board.get play.to_ =
        ⟨(g.board.get play.to_).location, 1, play.player⟩ ∧
      (g.makePlay play).board.get (.bar play.player.opp) =
        ⟨(g.board.get (.bar play.player.opp)).location,
          (g.board.get (.bar play.player.opp)).count + 1,
          (g.board.get (.bar play.player.opp)).player⟩ ∧
      ∀ r : PositionRef, r ≠ play.from_ → r ≠ play.to_ →
        r ≠ .bar play.player.opp →
        (g.makePlay play).board.get r = g.board.get r)) ∧
    (¬((g.board.get play.to_).player = play.player.opp ∧
        (g.board.get play.to_).count = 1) →
      ((g.makePlay play).board.get play.to_ =
        ⟨(g.board.get play.to_).location, (g.board.get play.to_).count + 1,
          play.player⟩ ∧
      ∀ r : PositionRef, r ≠ play.from_ → r ≠ play.to_ →
        (g.makePlay play).board.get r = g.board.get r)) := by
  have facts := (checkPlay_ok_iff g play).mp hok
  have hdir : play.isValidDirection g.board = true := not_not.mp facts.direction
  have hp : play.player ≠ .none := isValidDirection_player_ne_none hdir
  have hpo : play.player.opp ≠ .none := by
    cases hq : play.player with
    | black => exact fun h => Player.noConfusion h
    | white => exact fun h => Player.noConfusion h
    | none => exact absurd hq hp
  have hfromto : play.from_ ≠ play.to_ := isValidDirection_from_ne_to hdir
  have hfrombar : play.from_ ≠ .bar play.player.opp := by
    rcases checkOk_from_shape hwf hfrom hok with h | ⟨i, h⟩
    · rw [h]
      intro heq
      injection heq with hq
      exact absurd hq.symm (Player.opp_ne_self hp)
    · rw [h]; exact fun heq => PositionRef.noConfusion heq
  have hl0 : g.board.points.length = 24 := hwf.1
  by_cases hcond : (g.board.get play.to_).player = play.player.opp ∧
      (g.board.get play.to_).count = 1
  case pos =>
    -- hit branch
    have htobar : play.to_ ≠ .bar play.player.opp := by
      cases hpt : play.to_ with
      | bar q => exact absurd (by rw [hpt]; rfl) facts.notToBar
      | point j => exact fun heq => PositionRef.noConfusion heq
      | rail q => exact fun heq => PositionRef.noConfusion heq
    have hboard : (g.makePlay play).board =
        (let fromPos := g.board.get play.from_
         let toPos := g.board.get play.to_
         let b1 :=
           if toPos.player = play.player.opp ∧ toPos.count = 1 then
             let hitOwner := toPos.player
             let cleared := g.board.modifyRef play.to_
               fun t => { t with count := 0, player := .none }
             cleared.modifyBar hitOwner fun bar => { bar with count := bar.count + 1 }
           else g.board
         let b2 := b1.modifyRef play.from_ fun f => { f with count := f.count - 1 }
         let b3 := b2.modifyRef play.to_
           fun t => { t with player := play.player, count := t.count + 1 }
         if (b3.get play.from_).count = 0 ∧ ¬ play.from_.isBar then
           b3.modifyRef play.from_ fun f => { f with player := .none }
         else b3) := by
      show (g.makePlay play).board = _
      rw [Game.makePlay]
    simp only [] at hboard
    rw [if_pos hcond] at hboard
    simp only [Board.modifyBar, hcond.1] at hboard
    set cleared := g.board.modifyRef play.to_
      (fun t => { t with count := 0, player := .none }) with hcleared
    set B1 := cleared.modifyRef (.bar play.player.opp)
      (fun bar => { bar with count := bar.count + 1 }) with hB1
    set B2 := B1.modifyRef play.from_
      (fun f => { f with count := f.count - 1 }) with hB2
    set B3 := B2.modifyRef play.to_
      (fun t => { t with player := play.player, count := t.count + 1 }) with hB3
    have hlc : cleared.points.length = 24 := by
      rw [hcleared, Board.points_length_modifyRef]; exact hl0
    have hl1 : B1.points.length = 24 := by
      rw [hB1, Board.points_length_modifyRef]; exact hlc
    have hl2 : B2.points.length = 24 := by
      rw [hB2, Board.points_length_modifyRef]; exact hl1
    have hl3 : B3.points.length = 24 := by
      rw [hB3, Board.points_length_modifyRef]; exact hl2
    have hgc_to : cleared.get play.to_ =
        ⟨(g.board.get play.to_).location, 0, .none⟩ := by
      rw [hcleared, Board.get_modifyRef_same hl0 hto]
    have hgc_bar : cleared.get (.bar play.player.opp) =
        g.board.get (.bar play.player.opp) := by
      rw [hcleared, Board.get_modifyRef_ne htobar.symm]
    have hgc_from : cleared.get play.from_ = g.board.get play.from_ := by
      rw [hcleared, Board.get_modifyRef_ne hfromto]
    have hg1_to : B1.get play.to_ =
        ⟨(g.board.get play.to_).location, 0, .none⟩ := by
      rw [hB1, Board.get_modifyRef_ne htobar, hgc_to]
    have hg1_bar : B1.get (.bar play.player.opp) =
        ⟨(g.board.get (.bar play.player.opp)).location,
          (g.board.get (.bar play.player.opp)).count + 1,
          (g.board.get (.bar play.player.opp)).player⟩ := by
      rw [hB1,
        Board.get_modifyRef_same hlc
          (show (PositionRef.bar play.player.opp).Wf from hpo), hgc_bar]
    have hg1_from : B1.get play.from_ = g.board.get play.from_ := by
      rw [hB1, Board.get_modifyRef_ne hfrombar, hgc_from]
    have hg2_to : B2.get play.to_ =
        ⟨(g.board.get play.to_).location, 0, .none⟩ := by
      rw [hB2, Board.get_modifyRef_ne hfromto.symm, hg1_to]
    have hg2_bar : B2.get (.bar play.player.opp) =
        ⟨(g.board.get (.bar play.player.opp)).location,
          (g.board.get (.bar play.player.opp)).count + 1,
          (g.board.get (.bar play.player.opp)).player⟩ := by
      rw [hB2, Board.get_modifyRef_ne hfrombar.symm, hg1_bar]
    have hg2_from : B2.get play.from_ =
        ⟨(g.board.get play.from_).location,
          (g.board.get play.from_).count - 1,
          (g.board.get play.from_).player⟩ := by
      rw [hB2, Board.get_modifyRef_same hl1 hfrom, hg1_from]
    have hg3_to : B3.get play.to_ =
        ⟨(g.board.get play.to_).location, 1, play.player⟩ := by
      rw [hB3, Board.get_modifyRef_same hl2 hto, hg2_to]
    have hg3_bar : B3.get (.bar play.player.opp) =
        ⟨(g.board.get (.bar play.player.opp)).location,
          (g.board.get (.bar play.player.opp)).count + 1,
          (g.board.get (.bar play.player.opp)).player⟩ := by
      rw [hB3, Board.get_modifyRef_ne htobar.symm, hg2_bar]
    have hg3_from : B3.get play.from_ =
        ⟨(g.board.get play.from_).location,
          (g.board.get play.from_).count - 1,
          (g.board.get play.from_).player⟩ := by
      rw [hB3, Board.get_modifyRef_ne hfromto, hg2_from]
    have hfincond : ((B3.get play.from_).count = 0 ∧ ¬ play.from_.isBar) ↔
        ((g.board.get play.from_).count - 1 = 0 ∧ ¬ play.from_.isBar) := by
      rw [hg3_from]
    refine ⟨?_, ?_, fun _ => ⟨?_, ?_, ?_⟩, fun hc => absurd hcond hc⟩
    · rw [hboard]
      by_cases hfin : (B3.get play.from_).count = 0 ∧ ¬ play.from_.isBar
      · rw [if_pos hfin, Board.points_length_modifyRef]; exact hl3
      · rw [if_neg hfin]; exact hl3
    · rw [hboard]
      by_cases hfin : (B3.get play.from_).count = 0 ∧ ¬ play.from_.isBar
      · rw [if_pos hfin, if_pos (hfincond.mp hfin),
          Board.get_modifyRef_same hl3 hfrom, hg3_from]
      · rw [if_neg hfin, if_neg (fun h => hfin (hfincond.mpr h)), hg3_from]
    · rw [hboard]
      by_cases hfin : (B3.get play.from_).count = 0 ∧ ¬ play.from_.isBar
      · rw [if_pos hfin, Board.get_modifyRef_ne hfromto.symm, hg3_to]
      · rw [if_neg hfin, hg3_to]
    · rw [hboard]
      by_cases hfin : (B3.get play.from_).count = 0 ∧ ¬ play.from_.isBar
      · rw [if_pos hfin, Board.get_modifyRef_ne hfrombar.symm, hg3_bar]
      · rw [if_neg hfin, hg3_bar]
    · intro r hrf hrt hrb
      rw [hboard]
      by_cases hfin : (B3.get play.from_).count = 0 ∧ ¬ play.from_.isBar
      · rw [if_pos hfin, Board.get_modifyRef_ne hrf, hB3,
          Board.get_modifyRef_ne hrt, hB2, Board.get_modifyRef_ne hrf, hB1,
          Board.get_modifyRef_ne hrb, hcleared, Board.get_modifyRef_ne hrt]
      · rw [if_neg hfin, hB3, Board.get_modifyRef_ne hrt, hB2,
          Board.get_modifyRef_ne hrf, hB1, Board.get_modifyRef_ne hrb,
          hcleared, Board.get_modifyRef_ne hrt]
  case neg =>
    -- no hit
    have hboard : (g.makePlay play).board =
        (let fromPos := g.board.get play.from_
         let toPos := g.board.get play.to_
         let b1 :=
           if toPos.player = play.player.opp ∧ toPos.count = 1 then
             let hitOwner := toPos.player
             let cleared := g.board.modifyRef play.to_
               fun t => { t with count := 0, player := .none }
             cleared.modifyBar hitOwner fun bar => { bar with count := bar.count + 1 }
           else g.board
         let b2 := b1.modifyRef play.from_ fun f => { f with count := f.count - 1 }
         let b3 := b2.modifyRef play.to_
           fun t => { t with player := play.player, count := t.count + 1 }
         if (b3.get play.from_).count = 0 ∧ ¬ play.from_.isBar then
           b3.modifyRef play.from_ fun f => { f with player := .none }
         else b3) := by
      show (g.makePlay play).board = _
      rw [Game.makePlay]
    simp only [] at hboard
    rw [if_neg hcond] at hboard
    set B2 := g.board.modifyRef play.from_
      (fun f => { f with count := f.count - 1 }) with hB2
    set B3 := B2.modifyRef play.to_
      (fun t => { t with player := play.player, count := t.count + 1 }) with hB3
    have hl2 : B2.points.length = 24 := by
      rw [hB2, Board.points_length_modifyRef]; exact hl0
    have hl3 : B3.points.length = 24 := by
      rw [hB3, Board.points_length_modifyRef]; exact hl2
    have hg2_to : B2.get play.to_ = g.board.get play.to_ := by
      rw [hB2, Board.get_modifyRef_ne hfromto.symm]
    have hg2_from : B2.get play.from_ =
        ⟨(g.board.get play.from_).location,
          (g.board.get play.from_).count - 1,
          (g.board.get play.from_).player⟩ := by
      rw [hB2, Board.get_modifyRef_same hl0 hfrom]
    have hg3_to : B3.get play.to_ =
        ⟨(g.board.get play.to_).location, (g.board.get play.to_).count + 1,
          play.player⟩ := by
      rw [hB3, Board.get_modifyRef_same hl2 hto, hg2_to]
    have hg3_from : B3.get play.from_ =
        ⟨(g.board.get play.from_).location,
          (g.board.get play.from_).count - 1,
          (g.board.get play.from_).player⟩ := by
      rw [hB3, Board.get_modifyRef_ne hfromto, hg2_from]
    have hfincond : ((B3.get play.from_).count = 0 ∧ ¬ play.from_.isBar) ↔
        ((g.board.get play.from_).count - 1 = 0 ∧ ¬ play.from_.isBar) := by
      rw [hg3_from]
    refine ⟨?_, ?_, fun hc => absurd hc hcond, fun _ => ⟨?_, ?_⟩⟩
    · rw [hboard]
      by_cases hfin : (B3.get play.from_).count = 0 ∧ ¬ play.from_.isBar
      · rw [if_pos hfin, Board.points_length_modifyRef]; exact hl3
      · rw [if_neg hfin]; exact hl3
    · rw [hboard]
      by_cases hfin : (B3.get play.from_).count = 0 ∧ ¬ play.from_.isBar
      · rw [if_pos hfin, if_pos (hfincond.mp hfin),
          Board.get_modifyRef_same hl3 hfrom, hg3_from]
      · rw [if_neg hfin, if_neg (fun h => hfin (hfincond.mpr h)), hg3_from]
    · rw [hboard]
      by_cases hfin : (B3.get play.from_).count = 0 ∧ ¬ play.from_.isBar
      · rw [if_pos hfin, Board.get_modifyRef_ne hfromto.symm, hg3_to]
      · rw [if_neg hfin, hg3_to]
    · intro r hrf hrt
      rw [hboard]
      by_cases hfin : (B3.get play.from_).count = 0 ∧ ¬ play.from_.isBar
      · rw [if_pos hfin, Board.get_modifyRef_ne hrf, hB3,
          Board.get_modifyRef_ne hrt, hB2, Board.get_modifyRef_ne hrf]
      · rw [if_neg hfin, hB3, Board.get_modifyRef_ne hrt, hB2,
          Board.get_modifyRef_ne hrf]

/-! ## Piece counting -/

/-- Per-player piece total: the player's pieces on the 24 points plus the
contents of that player's bar and rail slots. -/
def Board.playerTotal (b : Board) (p : Player) : Nat :=
  (b.points.map fun pos => if pos.player = p then pos.count else 0).sum +
    (b.bar p).count + (b.rail p).count

/-- The point-ownership invariant of the spec's data model, for the 24 point
slots: an empty point is owned by the sentinel, an occupied point is not. -/
def Board.PointsInv (b : Board) : Prop :=
  ∀ i : IndexLocation,
    ((b.get (.point i)).count = 0 → (b.get (.point i)).player = .none) ∧
    ((b.get (.point i)).count ≠ 0 → (b.get (.point i)).player ≠ .none)

instance (b : Board) : Decidable b.PointsInv := by
  unfold Board.PointsInv; infer_instance

theorem sum_map_set {α : Type} (f : α → Nat) (d v : α) :
    ∀ (l : List α) (j : Nat), j < l.length →
      ((l.set j v).map f).sum + f (l.getD j d) = (l.map f).sum + f v := by
  intro l
  induction l with
  | nil => intro j hj; simp at hj
  | cons a t ih =>
    intro j hj
    cases j with
    | zero => simp; omega
    | succ j =>
      have hj' : j < t.length := by simpa using hj
      have := ih j hj'
      simp only [List.set_cons_succ, List.map_cons, List.sum_cons,
        List.getD_cons_succ]
      omega

theorem Board.point_eq_get (b : Board) (i : IndexLocation) :
    b.points.getD i.val Position.junk = b.get (.point i) := rfl

/-- Reconstruct the points list of a board that differs from `b` at exactly
two points. -/
theorem points_eq_set2 {b b' : Board} (hl : b.points.length = 24)
    (hl' : b'.points.length = 24) {i j : IndexLocation} (_hij : i ≠ j)
    {vi vj : Position}
    (hi : b'.get (.point i) = vi) (hj : b'.get (.point j) = vj)
    (hothers : ∀ k : IndexLocation, k ≠ i → k ≠ j →
      b'.get (.point k) = b.get (.point k)) :
    b'.points = (b.points.set i.val vi).set j.val vj := by
  apply List.ext_getElem
  · simp [hl, hl']
  · intro k hk1 hk2
    have hk24 : k < 24 := by rw [hl'] at hk1; exact hk1
    have hkb : k < b.points.length := by rw [hl]; exact hk24
    have hlhs : b'.points[k] = b'.get (.point ⟨k, hk24⟩) := by
      rw [← Board.point_eq_get, List.getD_eq_getElem _ _ hk1]
    rw [hlhs]
    by_cases hkj : k = j.val
    · have hkfj : (⟨k, hk24⟩ : IndexLocation) = j := Fin.ext hkj
      rw [hkfj, hj]
      have hrhs : getElem ((b.points.set i.val vi).set j.val vj) k hk2 = vj := by
        subst hkj
        exact List.getElem_set_self ..
      rw [hrhs]
    · by_cases hki : k = i.val
      · have hkfi : (⟨k, hk24⟩ : IndexLocation) = i := Fin.ext hki
        rw [hkfi, hi]
        rw [List.getElem_set_of_ne (fun h => hkj h.symm)]
        have hrhs : getElem (b.points.set i.val vi) k (by simpa using hkb) = vi := by
          subst hki
          exact List.getElem_set_self ..
        rw [hrhs]
      · have hfki : (⟨k, hk24⟩ : IndexLocation) ≠ i :=
          fun h => hki (congrArg Fin.val h)
        have hfkj : (⟨k, hk24⟩ : IndexLocation) ≠ j :=
          fun h => hkj (congrArg Fin.val h)
        rw [hothers _ hfki hfkj]
        rw [List.getElem_set_of_ne (fun h => hkj h.symm),
          List.getElem_set_of_ne (fun h => hki h.symm)]
        rw [← Board.point_eq_get, List.getD_eq_getElem _ _ hkb]

/-- Reconstruct the points list of a board that differs from `b` at exactly
one point. -/
theorem points_eq_set1 {b b' : Board} (hl : b.points.length = 24)
    (hl' : b'.points.length = 24) {i : IndexLocation} {vi : Position}
    (hi : b'.get (.point i) = vi)
    (hothers : ∀ k : IndexLocation, k ≠ i →
      b'.get (.point k) = b.get (.point k)) :
    b'.points = b.points.set i.val vi := by
  apply List.ext_getElem
  · simp [hl, hl']
  · intro k hk1 hk2
    have hk24 : k < 24 := by rw [hl'] at hk1; exact hk1
    have hkb : k < b.points.length := by rw [hl]; exact hk24
    have hlhs : b'.points[k] = b'.get (.point ⟨k, hk24⟩) := by
      rw [← Board.point_eq_get, List.getD_eq_getElem _ _ hk1]
    rw [hlhs]
    by_cases hki : k = i.val
    · have hkfi : (⟨k, hk24⟩ : IndexLocation) = i := Fin.ext hki
      rw [hkfi, hi]
      have hrhs : getElem (b.points.set i.val vi) k hk2 = vi := by
        subst hki
        exact List.getElem_set_self ..
      rw [hrhs]
    · have hfki : (⟨k, hk24⟩ : IndexLocation) ≠ i :=
        fun h => hki (congrArg Fin.val h)
      rw [hothers _ hfki]
      rw [List.getElem_set_of_ne (fun h => hki h.symm)]
      rw [← Board.point_eq_get, List.getD_eq_getElem _ _ hkb]

/-- Reconstruct the points list of a board whose points all agree with `b`. -/
theorem points_eq_same {b b' : Board} (hl : b.points.length = 24)
    (hl' : b'.points.length = 24)
    (hothers : ∀ k : IndexLocation, b'.get (.point k) = b.get (.point k)) :
    b'.points = b.points := by
  apply List.ext_getElem
  · rw [hl, hl']
  · intro k hk1 hk2
    have hk24 : k < 24 := by rw [hl'] at hk1; exact hk1
    have hlhs : b'.points[k] = b'.get (.point ⟨k, hk24⟩) := by
      rw [← Board.point_eq_get, List.getD_eq_getElem _ _ hk1]
    rw [hlhs, hothers]
    rw [← Board.point_eq_get, List.getD_eq_getElem _ _ hk2]

theorem getD_set_ne {α : Type} {l : List α} {i j : Nat} (h : i ≠ j)
    (v d : α) : (l.set i v).getD j d = l.getD j d := by
  rw [List.getD_eq_getElem?_getD, List.getElem?_set_ne h,
    ← List.getD_eq_getElem?_getD]

/-- Accounting for a points list updated at two distinct indices. -/
theorem sum_contrib_set2 (b : Board) (hl : b.points.length = 24)
    (i j : IndexLocation) (hij : i.val ≠ j.val) (vi vj : Position)
    (p : Player) :
    ((((b.points.set i.val vi).set j.val vj).map
        fun pos => if pos.player = p then pos.count else 0).sum) +
      (if (b.get (.point i)).player = p then (b.get (.point i)).count else 0) +
      (if (b.get (.point j)).player = p then (b.get (.point j)).count else 0) =
    ((b.points.map fun pos => if pos.player = p then pos.count else 0).sum) +
      (if vi.player = p then vi.count else 0) +
      (if vj.player = p then vj.count else 0) := by
  have h1 := sum_map_set (fun pos => if pos.player = p then pos.count else 0)
    Position.junk vj (b.points.set i.val vi) j.val
    (by rw [List.length_set, hl]; exact j.isLt)
  have h2 := sum_map_set (fun pos => if pos.player = p then pos.count else 0)
    Position.junk vi b.points i.val (by rw [hl]; exact i.isLt)
  rw [getD_set_ne hij] at h1
  rw [Board.point_eq_get] at h1 h2
  simp only [] at h1 h2
  omega

/-- Accounting for a points list updated at one index. -/
theorem sum_contrib_set1 (b : Board) (hl : b.points.length = 24)
    (i : IndexLocation) (vi : Position) (p : Player) :
    (((b.points.set i.val vi).map
        fun pos => if pos.player = p then pos.count else 0).sum) +
      (if (b.get (.point i)).player = p then (b.get (.point i)).count else 0) =
    ((b.points.map fun pos => if pos.player = p then pos.count else 0).sum) +
      (if vi.player = p then vi.count else 0) := by
  have h2 := sum_map_set (fun pos => if pos.player = p then pos.count else 0)
    Position.junk vi b.points i.val (by rw [hl]; exact i.isLt)
  rw [Board.point_eq_get] at h2
  simp only [] at h2
  omega

theorem Player.eq_opp_of_ne {p q : Player} (hq : q ≠ .none) (hp : p ≠ .none)
    (hne : p ≠ q) : p = q.opp := by
  cases p <;> cases q <;>
    first
      | rfl
      | exact absurd rfl hq
      | exact absurd rfl hp
      | exact absurd rfl hne

theorem Board.bar_eq_get (b : Board) (p : Player) : b.bar p = b.get (.bar p) := rfl

theorem Board.rail_eq_get (b : Board) (p : Player) : b.rail p = b.get (.rail p) := rfl

/-- `make_play` on a validated play conserves each player's piece total
(points + bar + rail), given the point-ownership invariant. -/
theorem makePlay_playerTotal (g : Game) (play : Play) (hwf : g.board.Wf)
    (hfrom : play.from_.Wf) (hto : play.to_.Wf)
    (hok : g.checkPlay play = .ok ()) (hinv : g.board.PointsInv)
    (p : Player) (hp : p ≠ .none) :
    (g.makePlay play).board.playerTotal p = g.board.playerTotal p := by
  obtain ⟨hlen', hfromEq, hhitSpec, hnohitSpec⟩ :=
    makePlay_get_spec g play hwf hfrom hto hok
  have facts := (checkPlay_ok_iff g play).mp hok
  have hdir : play.isValidDirection g.board = true := not_not.mp facts.direction
  have hp0 : play.player ≠ .none := isValidDirection_player_ne_none hdir
  have hpo : play.player.opp ≠ .none := by
    cases hq : play.player with
    | black => exact fun h => Player.noConfusion h
    | white => exact fun h => Player.noConfusion h
    | none => exact absurd hq hp0
  have hoppne : play.player.opp ≠ play.player := Player.opp_ne_self hp0
  have hfromto : play.from_ ≠ play.to_ := isValidDirection_from_ne_to hdir
  have hl0 : g.board.points.length = 24 := hwf.1
  have hcf : (g.board.get play.from_).count ≠ 0 := facts.fromOccupied
  have hfowner : (g.board.get play.from_).player = play.player :=
    not_ne_iff.mp facts.fromOwned
  -- contribution of the origin cell after the play
  have hvf : (if ((g.makePlay play).board.get play.from_).player = p then
      ((g.makePlay play).board.get play.from_).count else 0) =
      (if play.player = p then (g.board.get play.from_).count - 1 else 0) := by
    rw [hfromEq]
    by_cases hcl : (g.board.get play.from_).count - 1 = 0 ∧ ¬ play.from_.isBar
    · rw [if_pos hcl]
      simp only []
      rw [if_neg (fun h => hp h.symm), hcl.1]
      simp
    · rw [if_neg hcl]
      simp only [hfowner]
  -- contribution of the origin cell before the play
  have hof : (if (g.board.get play.from_).player = p then
      (g.board.get play.from_).count else 0) =
      (if play.player = p then (g.board.get play.from_).count else 0) := by
    rw [hfowner]
  -- contribution of the old destination cell (no-hit case)
  have hocNoHit : ¬((g.board.get play.to_).player = play.player.opp ∧
      (g.board.get play.to_).count = 1) →
      (∃ jj : IndexLocation, play.to_ = .point jj) →
      (if (g.board.get play.to_).player = p then
        (g.board.get play.to_).count else 0) =
      (if play.player = p then (g.board.get play.to_).count else 0) := by
    intro hcond ⟨jj, htsh⟩
    by_cases how : (g.board.get play.to_).player = play.player
    · rw [how]
    · by_cases hon : (g.board.get play.to_).player = .none
      · have hz : (g.board.get play.to_).count = 0 := by
          by_contra hnz
          rw [htsh] at hon hnz
          exact absurd hon ((hinv jj).2 hnz)
        rw [hz]; simp
      · have hopp : (g.board.get play.to_).player = play.player.opp :=
          Player.eq_opp_of_ne hp0 hon how
        have hz : (g.board.get play.to_).count = 0 := by
          have hns := facts.noStack
          by_contra hnz
          have h1 : (g.board.get play.to_).count = 1 ∨
              1 < (g.board.get play.to_).count := by omega
          rcases h1 with h1 | h1
          · exact hcond ⟨hopp, h1⟩
          · exact hns ⟨hopp, h1⟩
        rw [hz]; simp
  rcases checkOk_from_shape hwf hfrom hok with hfshape | ⟨i, hfshape⟩ <;>
    rcases checkOk_to_shape hwf hfrom hto hok with htshape | ⟨j, htshape⟩
  · -- from the bar, to the rail (no hit possible: the rail is owned by the player)
    have hrailowner : (g.board.get play.to_).player = play.player := by
      rw [htshape]; exact Board.get_rail_player hwf hp0
    have hcond : ¬((g.board.get play.to_).player = play.player.opp ∧
        (g.board.get play.to_).count = 1) := by
      intro hc
      rw [hrailowner] at hc
      exact absurd hc.1.symm hoppne
    obtain ⟨htoval, hothers⟩ := hnohitSpec hcond
    have hpoints : (g.makePlay play).board.points = g.board.points :=
      points_eq_same hl0 hlen' (fun k =>
        hothers _ (by rw [hfshape]; exact fun h => PositionRef.noConfusion h)
          (by rw [htshape]; exact fun h => PositionRef.noConfusion h))
    rw [Board.playerTotal, Board.playerTotal, hpoints, Board.bar_eq_get,
      Board.bar_eq_get, Board.rail_eq_get, Board.rail_eq_get]
    by_cases hpp0 : p = play.player
    · rw [hpp0]
      have hbar : (g.makePlay play).board.get (.bar play.player) =
          ((g.makePlay play).board.get play.from_) := by rw [hfshape]
      have hrail : (g.makePlay play).board.get (.rail play.player) =
          ((g.makePlay play).board.get play.to_) := by rw [htshape]
      have hbar0 : g.board.get (.bar play.player) = g.board.get play.from_ := by
        rw [hfshape]
      have hrail0 : g.board.get (.rail play.player) = g.board.get play.to_ := by
        rw [htshape]
      rw [hbar, hrail, hbar0, hrail0, hfromEq, htoval]
      by_cases hcl : (g.board.get play.from_).count - 1 = 0 ∧ ¬ play.from_.isBar
      · rw [if_pos hcl]
        simp only []
        omega
      · rw [if_neg hcl]
        simp only []
        omega
    · have hbar : (g.makePlay play).board.get (.bar p) = g.board.get (.bar p) :=
        hothers _ (by rw [hfshape]; exact fun h => hpp0 (by injection h))
          (by rw [htshape]; exact fun h => PositionRef.noConfusion h)
      have hrail : (g.makePlay play).board.get (.rail p) =
          g.board.get (.rail p) :=
        hothers _ (by rw [hfshape]; exact fun h => PositionRef.noConfusion h)
          (by rw [htshape]; exact fun h => hpp0 (by injection h))
      rw [hbar, hrail]
  · -- from the bar, to a point
    by_cases hcond : (g.board.get play.to_).player = play.player.opp ∧
        (g.board.get play.to_).count = 1
    · -- hit
      obtain ⟨htoval, hbarval, hothers⟩ := hhitSpec hcond
      have hpoints : (g.makePlay play).board.points =
          g.board.points.set j.val
            ⟨(g.board.get play.to_).location, 1, play.player⟩ := by
        refine points_eq_set1 hl0 hlen' (by rw [← htshape]; exact htoval)
          (fun k hk => hothers _ ?_ ?_ ?_)
        · rw [hfshape]; exact fun h => PositionRef.noConfusion h
        · rw [htshape]
          exact fun h => hk (by injection h)
        · exact fun h => PositionRef.noConfusion h
      have hsum := sum_contrib_set1 g.board hl0 j
        ⟨(g.board.get play.to_).location, 1, play.player⟩ p
      simp only [] at hsum
      have hjget : g.board.get (.point j) = g.board.get play.to_ := by
        rw [htshape]
      rw [hjget, hcond.1, hcond.2] at hsum
      rw [Board.playerTotal, Board.playerTotal, hpoints, Board.bar_eq_get,
        Board.bar_eq_get, Board.rail_eq_get, Board.rail_eq_get]
      have hrail : (g.makePlay play).board.get (.rail p) =
          g.board.get (.rail p) :=
        hothers _ (by rw [hfshape]; exact fun h => PositionRef.noConfusion h)
          (by rw [htshape]; exact fun h => PositionRef.noConfusion h)
          (fun h => PositionRef.noConfusion h)
      rw [hrail]
      by_cases hpp0 : p = play.player
      · rw [hpp0] at hsum ⊢
        have hbar : (g.makePlay play).board.get (.bar play.player) =
            ((g.makePlay play).board.get play.from_) := by rw [hfshape]
        have hbar0 : g.board.get (.bar play.player) =
            g.board.get play.from_ := by rw [hfshape]
        rw [hbar, hbar0, hfromEq]
        rw [if_neg (fun h => hoppne h), if_pos rfl] at hsum
        by_cases hcl : (g.board.get play.from_).count - 1 = 0 ∧ ¬ play.from_.isBar
        · rw [if_pos hcl]
          simp only []
          omega
        · rw [if_neg hcl]
          simp only []
          omega
      · have hpopp : p = play.player.opp := Player.eq_opp_of_ne hp0 hp hpp0
        have hbar : (g.makePlay play).board.get (.bar p) =
            ⟨(g.board.get (.bar play.player.opp)).location,
              (g.board.get (.bar play.player.opp)).count + 1,
              (g.board.get (.bar play.player.opp)).player⟩ := by
          rw [hpopp]; exact hbarval
        rw [hbar, hpopp]
        rw [hpopp, if_pos rfl, if_neg (fun h => hoppne h.symm)] at hsum
        simp only []
        omega
    · -- no hit
      obtain ⟨htoval, hothers⟩ := hnohitSpec hcond
      have hpoints : (g.makePlay play).board.points =
          g.board.points.set j.val ⟨(g.board.get play.to_).location,
            (g.board.get play.to_).count + 1, play.player⟩ := by
        refine points_eq_set1 hl0 hlen' (by rw [← htshape]; exact htoval)
          (fun k hk => hothers _ ?_ ?_)
        · rw [hfshape]; exact fun h => PositionRef.noConfusion h
        · rw [htshape]
          exact fun h => hk (by injection h)
      have hsum := sum_contrib_set1 g.board hl0 j
        ⟨(g.board.get play.to_).location,
          (g.board.get play.to_).count + 1, play.player⟩ p
      simp only [] at hsum
      have hjget : g.board.get (.point j) = g.board.get play.to_ := by
        rw [htshape]
      rw [hjget, hocNoHit hcond ⟨j, htshape⟩] at hsum
      rw [Board.playerTotal, Board.playerTotal, hpoints, Board.bar_eq_get,
        Board.bar_eq_get, Board.rail_eq_get, Board.rail_eq_get]
      have hrail : (g.makePlay play).board.get (.rail p) =
          g.board.get (.rail p) :=
        hothers _ (by rw [hfshape]; exact fun h => PositionRef.noConfusion h)
          (by rw [htshape]; exact fun h => PositionRef.noConfusion h)
      rw [hrail]
      by_cases hpp0 : p = play.player
      · rw [hpp0] at hsum ⊢
        have hbar : (g.makePlay play).board.get (.bar play.player) =
            ((g.makePlay play).board.get play.from_) := by rw [hfshape]
        have hbar0 : g.board.get (.bar play.player) =
            g.board.get play.from_ := by rw [hfshape]
        rw [hbar, hbar0, hfromEq]
        rw [if_pos rfl, if_pos rfl] at hsum
        by_cases hcl : (g.board.get play.from_).count - 1 = 0 ∧ ¬ play.from_.isBar
        · rw [if_pos hcl]
          simp only []
          omega
        · rw [if_neg hcl]
          simp only []
          omega
      · have hbar : (g.makePlay play).board.get (.bar p) =
            g.board.get (.bar p) :=
          hothers _ (by rw [hfshape]; exact fun h => hpp0 (by injection h))
            (by rw [htshape]; exact fun h => PositionRef.noConfusion h)
        rw [hbar]
        rw [if_neg (fun h => hpp0 h.symm), if_neg (fun h => hpp0 h.symm)] at hsum
        omega
  · -- from a point, to the rail (no hit possible)
    have hrailowner : (g.board.get play.to_).player = play.player := by
      rw [htshape]; exact Board.get_rail_player hwf hp0
    have hcond : ¬((g.board.get play.to_).player = play.player.opp ∧
        (g.board.get play.to_).count = 1) := by
      intro hc
      rw [hrailowner] at hc
      exact absurd hc.1.symm hoppne
    obtain ⟨htoval, hothers⟩ := hnohitSpec hcond
    have hvfval : (g.makePlay play).board.get (.point i) =
        ((g.makePlay play).board.get play.from_) := by rw [hfshape]
    have hpoints : (g.makePlay play).board.points =
        g.board.points.set i.val ((g.makePlay play).board.get play.from_) := by
      refine points_eq_set1 hl0 hlen' hvfval (fun k hk => hothers _ ?_ ?_)
      · rw [hfshape]
        exact fun h => hk (by injection h)
      · rw [htshape]; exact fun h => PositionRef.noConfusion h
    have hsum := sum_contrib_set1 g.board hl0 i
      ((g.makePlay play).board.get play.from_) p
    simp only [] at hsum
    have higet : g.board.get (.point i) = g.board.get play.from_ := by
      rw [hfshape]
    rw [higet, hof, hvf] at hsum
    rw [Board.playerTotal, Board.playerTotal, hpoints, Board.bar_eq_get,
      Board.bar_eq_get, Board.rail_eq_get, Board.rail_eq_get]
    have hbar : (g.makePlay play).board.get (.bar p) = g.board.get (.bar p) :=
      hothers _ (by rw [hfshape]; exact fun h => PositionRef.noConfusion h)
        (by rw [htshape]; exact fun h => PositionRef.noConfusion h)
    rw [hbar]
    by_cases hpp0 : p = play.player
    · rw [hpp0] at hsum ⊢
      have hrail : (g.makePlay play).board.get (.rail play.player) =
          ((g.makePlay play).board.get play.to_) := by rw [htshape]
      have hrail0 : g.board.get (.rail play.player) =
          g.board.get play.to_ := by rw [htshape]
      rw [hrail, hrail0, htoval]
      rw [if_pos rfl, if_pos rfl] at hsum
      simp only []
      omega
    · have hrail : (g.makePlay play).board.get (.rail p) =
          g.board.get (.rail p) :=
        hothers _ (by rw [hfshape]; exact fun h => PositionRef.noConfusion h)
          (by rw [htshape]; exact fun h => hpp0 (by injection h))
      rw [hrail]
      rw [if_neg (fun h => hpp0 h.symm), if_neg (fun h => hpp0 h.symm)] at hsum
      omega
  · -- from a point, to a point
    have hij : i ≠ j := by
      intro h
      rw [hfshape, htshape, h] at hfromto
      exact hfromto rfl
    by_cases hcond : (g.board.get play.to_).player = play.player.opp ∧
        (g.board.get play.to_).count = 1
    · -- hit
      obtain ⟨htoval, hbarval, hothers⟩ := hhitSpec hcond
      have hvfval : (g.makePlay play).board.get (.point i) =
          ((g.makePlay play).board.get play.from_) := by rw [hfshape]
      have hpoints : (g.makePlay play).board.points =
          (g.board.points.set i.val
            ((g.makePlay play).board.get play.from_)).set j.val
            ⟨(g.board.get play.to_).location, 1, play.player⟩ := by
        refine points_eq_set2 hl0 hlen' hij hvfval
          (by rw [← htshape]; exact htoval) (fun k hki hkj => hothers _ ?_ ?_ ?_)
        · rw [hfshape]
          exact fun h => hki (by injection h)
        · rw [htshape]
          exact fun h => hkj (by injection h)
        · exact fun h => PositionRef.noConfusion h
      have hsum := sum_contrib_set2 g.board hl0 i j
        (fun h => hij (Fin.ext h)) ((g.makePlay play).board.get play.from_)
        ⟨(g.board.get play.to_).location, 1, play.player⟩ p
      simp only [] at hsum
      have higet : g.board.get (.point i) = g.board.get play.from_ := by
        rw [hfshape]
      have hjget : g.board.get (.point j) = g.board.get play.to_ := by
        rw [htshape]
      rw [higet, hjget, hof, hvf, hcond.1, hcond.2] at hsum
      rw [Board.playerTotal, Board.playerTotal, hpoints, Board.bar_eq_get,
        Board.bar_eq_get, Board.rail_eq_get, Board.rail_eq_get]
      have hrail : (g.makePlay play).board.get (.rail p) =
          g.board.get (.rail p) :=
        hothers _ (by rw [hfshape]; exact fun h => PositionRef.noConfusion h)
          (by rw [htshape]; exact fun h => PositionRef.noConfusion h)
          (fun h => PositionRef.noConfusion h)
      rw [hrail]
      by_cases hpp0 : p = play.player
      · rw [hpp0] at hsum ⊢
        have hbar : (g.makePlay play).board.get (.bar play.player) =
            g.board.get (.bar play.player) :=
          hothers _ (by rw [hfshape]; exact fun h => PositionRef.noConfusion h)
            (by rw [htshape]; exact fun h => PositionRef.noConfusion h)
            (fun h => hoppne (by injection h with h'; exact h'.symm))
        rw [hbar]
        rw [if_pos rfl, if_pos rfl, if_pos rfl, if_neg (fun h => hoppne h)] at hsum
        omega
      · have hpopp : p = play.player.opp := Player.eq_opp_of_ne hp0 hp hpp0
        have hbar : (g.makePlay play).board.get (.bar p) =
            ⟨(g.board.get (.bar play.player.opp)).location,
              (g.board.get (.bar play.player.opp)).count + 1,
              (g.board.get (.bar play.player.opp)).player⟩ := by
          rw [hpopp]; exact hbarval
        rw [hbar, hpopp]
        rw [hpopp, if_neg (fun h => hoppne h.symm), if_pos rfl,
          if_neg (fun h => hoppne h.symm), if_neg (fun h => hoppne h.symm)] at hsum
        simp only []
        omega
    · -- no hit
      obtain ⟨htoval, hothers⟩ := hnohitSpec hcond
      have hvfval : (g.makePlay play).board.get (.point i) =
          ((g.makePlay play).board.get play.from_) := by rw [hfshape]
      have hpoints : (g.makePlay play).board.points =
          (g.board.points.set i.val
            ((g.makePlay play).board.get play.from_)).set j.val
            ⟨(g.board.get play.to_).location,
              (g.board.get play.to_).count + 1, play.player⟩ := by
        refine points_eq_set2 hl0 hlen' hij hvfval
          (by rw [← htshape]; exact htoval) (fun k hki hkj => hothers _ ?_ ?_)
        · rw [hfshape]
          exact fun h => hki (by injection h)
        · rw [htshape]
          exact fun h => hkj (by injection h)
      have hsum := sum_contrib_set2 g.board hl0 i j
        (fun h => hij (Fin.ext h)) ((g.makePlay play).board.get play.from_)
        ⟨(g.board.get play.to_).location,
          (g.board.get play.to_).count + 1, play.player⟩ p
      simp only [] at hsum
      have higet : g.board.get (.point i) = g.board.get play.from_ := by
        rw [hfshape]
      have hjget : g.board.get (.point j) = g.board.get play.to_ := by
        rw [htshape]
      rw [higet, hjget, hof, hvf, hocNoHit hcond ⟨j, htshape⟩] at hsum
      rw [Board.playerTotal, Board.playerTotal, hpoints, Board.bar_eq_get,
        Board.bar_eq_get, Board.rail_eq_get, Board.rail_eq_get]
      have hrail : (g.makePlay play).board.get (.rail p) =
          g.board.get (.rail p) :=
        hothers _ (by rw [hfshape]; exact fun h => PositionRef.noConfusion h)
          (by rw [htshape]; exact fun h => PositionRef.noConfusion h)
      have hbar : (g.makePlay play).board.get (.bar p) = g.board.get (.bar p) :=
        hothers _ (by rw [hfshape]; exact fun h => PositionRef.noConfusion h)
          (by rw [htshape]; exact fun h => PositionRef.noConfusion h)
      rw [hrail, hbar]
      by_cases hpp0 : p = play.player
      · rw [hpp0] at hsum ⊢
        rw [if_pos rfl, if_pos rfl, if_pos rfl, if_pos rfl] at hsum
        omega
      · rw [if_neg (fun h => hpp0 h.symm), if_neg (fun h => hpp0 h.symm),
          if_neg (fun h => hpp0 h.symm), if_neg (fun h => hpp0 h.symm)] at hsum
        omega

/-! ## `make_play` preserves the structural invariants -/

/-- `make_play` never writes a `location` field: every slot's stored location
is unchanged. -/
theorem makePlay_location (g : Game) (play : Play) (hwf : g.board.Wf)
    (hfrom : play.from_.Wf) (hto : play.to_.Wf)
    (hok : g.checkPlay play = .ok ()) (r : PositionRef) :
    ((g.makePlay play).board.get r).location = (g.board.get r).location := by
  obtain ⟨hlen', hfromEq, hhitSpec, hnohitSpec⟩ :=
    makePlay_get_spec g play hwf hfrom hto hok
  by_cases hrf : r = play.from_
  · rw [hrf, hfromEq]
    by_cases hcl : (g.board.get play.from_).count - 1 = 0 ∧ ¬ play.from_.isBar
    · rw [if_pos hcl]
    · rw [if_neg hcl]
  by_cases hrt : r = play.to_
  · rw [hrt]
    by_cases hcond : (g.board.get play.to_).player = play.player.opp ∧
        (g.board.get play.to_).count = 1
    · rw [(hhitSpec hcond).1]
    · rw [(hnohitSpec hcond).1]
  by_cases hcond : (g.board.get play.to_).player = play.player.opp ∧
      (g.board.get play.to_).count = 1
  · by_cases hrb : r = .bar play.player.opp
    · rw [hrb, (hhitSpec hcond).2.1]
    · rw [(hhitSpec hcond).2.2 r hrf hrt hrb]
  · rw [(hnohitSpec hcond).2 r hrf hrt]

/-- `make_play` leaves every bar slot owned by its designated player. -/
theorem makePlay_bar_player (g : Game) (play : Play) (hwf : g.board.Wf)
    (hfrom : play.from_.Wf) (hto : play.to_.Wf)
    (hok : g.checkPlay play = .ok ()) (q : Player) (hq : q ≠ .none) :
    ((g.makePlay play).board.get (.bar q)).player = q := by
  obtain ⟨hlen', hfromEq, hhitSpec, hnohitSpec⟩ :=
    makePlay_get_spec g play hwf hfrom hto hok
  have facts := (checkPlay_ok_iff g play).mp hok
  have hbart : (PositionRef.bar q) ≠ play.to_ :=
    fun h => facts.notToBar (h ▸ rfl)
  by_cases hbf : (PositionRef.bar q) = play.from_
  · have hbar : play.from_.isBar = true := hbf ▸ rfl
    have hcl : ¬ ((g.board.get play.from_).count - 1 = 0 ∧ ¬ play.from_.isBar) :=
      fun hc => hc.2 hbar
    rw [hbf, hfromEq, if_neg hcl]
    show (g.board.get play.from_).player = q
    rw [← hbf]
    exact Board.get_bar_player hwf hq
  · by_cases hcond : (g.board.get play.to_).player = play.player.opp ∧
        (g.board.get play.to_).count = 1
    · by_cases hbo : q = play.player.opp
      · have hpo : play.player.opp ≠ Player.none := by rw [← hbo]; exact hq
        rw [hbo, (hhitSpec hcond).2.1]
        show (g.board.get (.bar play.player.opp)).player = play.player.opp
        exact Board.get_bar_player hwf hpo
      · rw [(hhitSpec hcond).2.2 _ hbf hbart (fun h => hbo (by injection h))]
        exact Board.get_bar_player hwf hq
    · rw [(hnohitSpec hcond).2 _ hbf hbart]
      exact Board.get_bar_player hwf hq

/-- `make_play` leaves every rail slot owned by its designated player. -/
theorem makePlay_rail_player (g : Game) (play : Play) (hwf : g.board.Wf)
    (hfrom : play.from_.Wf) (hto : play.to_.Wf)
    (hok : g.checkPlay play = .ok ()) (q : Player) (hq : q ≠ .none) :
    ((g.makePlay play).board.get (.rail q)).player = q := by
  obtain ⟨hlen', hfromEq, hhitSpec, hnohitSpec⟩ :=
    makePlay_get_spec g play hwf hfrom hto hok
  have facts := (checkPlay_ok_iff g play).mp hok
  have hdir : play.isValidDirection g.board = true := not_not.mp facts.direction
  have hp0 : play.player ≠ .none := isValidDirection_player_ne_none hdir
  have hrailf : (PositionRef.rail q) ≠ play.from_ :=
    fun h => facts.notFromRail (h ▸ rfl)
  by_cases hrt : (PositionRef.rail q) = play.to_
  · have hqp : q = play.player := by
      have h := direction_rail_own hwf hfrom hto hdir (hrt ▸ rfl)
      rw [← hrt] at h
      injection h
    have hnc : ¬ ((g.board.get play.to_).player = play.player.opp ∧
        (g.board.get play.to_).count = 1) := by
      intro hc
      have hgp : (g.board.get play.to_).player = q := by
        rw [← hrt]; exact Board.get_rail_player hwf hq
      rw [hgp, hqp] at hc
      exact (Player.opp_ne_self hp0) hc.1.symm
    rw [hrt, (hnohitSpec hnc).1]
    exact hqp.symm
  · by_cases hcond : (g.board.get play.to_).player = play.player.opp ∧
        (g.board.get play.to_).count = 1
    · rw [(hhitSpec hcond).2.2 _ hrailf hrt (fun h => PositionRef.noConfusion h)]
      exact Board.get_rail_player hwf hq
    · rw [(hnohitSpec hcond).2 _ hrailf hrt]
      exact Board.get_rail_player hwf hq

/-- `make_play` on a validated play preserves board well-formedness. -/
theorem makePlay_Wf (g : Game) (play : Play) (hwf : g.board.Wf)
    (hfrom : play.from_.Wf) (hto : play.to_.Wf)
    (hok : g.checkPlay play = .ok ()) : (g.makePlay play).board.Wf := by
  have hloc := makePlay_location g play hwf hfrom hto hok
  have hbarp := makePlay_bar_player g play hwf hfrom hto hok
  have hrailp := makePlay_rail_player g play hwf hfrom hto hok
  have hlen' := (makePlay_get_spec g play hwf hfrom hto hok).1
  refine ⟨hlen', ?_, ?_, ?_, ?_, ?_, ?_, ?_, ?_, ?_⟩
  · intro i
    rw [Board.point_eq_get, hloc]
    exact Board.get_point_location hwf i
  · show ((g.makePlay play).board.get (.bar .black)).location = 25
    rw [hloc]; exact hwf.2.2.1
  · exact hbarp .black (fun h => Player.noConfusion h)
  · show ((g.makePlay play).board.get (.bar .white)).location = 0
    rw [hloc]; exact hwf.2.2.2.2.1
  · exact hbarp .white (fun h => Player.noConfusion h)
  · show ((g.makePlay play).board.get (.rail .black)).location = 0
    rw [hloc]; exact hwf.2.2.2.2.2.2.1
  · exact hrailp .black (fun h => Player.noConfusion h)
  · show ((g.makePlay play).board.get (.rail .white)).location = 25
    rw [hloc]; exact hwf.2.2.2.2.2.2.2.2.1
  · exact hrailp .white (fun h => Player.noConfusion h)

/-- `make_play` on a validated play preserves the point-ownership invariant
over the 24 points. -/
theorem makePlay_PointsInv (g : Game) (play : Play) (hwf : g.board.Wf)
    (hfrom : play.from_.Wf) (hto : play.to_.Wf)
    (hok : g.checkPlay play = .ok ()) (hinv : g.board.PointsInv) :
    (g.makePlay play).board.PointsInv := by
  obtain ⟨hlen', hfromEq, hhitSpec, hnohitSpec⟩ :=
    makePlay_get_spec g play hwf hfrom hto hok
  have facts := (checkPlay_ok_iff g play).mp hok
  have hdir : play.isValidDirection g.board = true := not_not.mp facts.direction
  have hp0 : play.player ≠ .none := isValidDirection_player_ne_none hdir
  intro i
  by_cases hif : (PositionRef.point i) = play.from_
  · have hnb : play.from_.isBar = false := hif ▸ rfl
    rw [hif, hfromEq]
    by_cases hcl : (g.board.get play.from_).count - 1 = 0 ∧ ¬ play.from_.isBar
    · rw [if_pos hcl]
      exact ⟨fun _ => rfl, fun hc => absurd hcl.1 hc⟩
    · rw [if_neg hcl]
      have hcnt : (g.board.get play.from_).count - 1 ≠ 0 := by
        intro h0
        exact hcl ⟨h0, by rw [hnb]; exact fun h => Bool.noConfusion h⟩
      refine ⟨fun hc => absurd hc hcnt, fun _ => ?_⟩
      show (g.board.get play.from_).player ≠ .none
      rw [not_ne_iff.mp facts.fromOwned]
      exact hp0
  · by_cases hit2 : (PositionRef.point i) = play.to_
    · rw [hit2]
      by_cases hcond : (g.board.get play.to_).player = play.player.opp ∧
          (g.board.get play.to_).count = 1
      · rw [(hhitSpec hcond).1]
        exact ⟨fun hc => absurd hc one_ne_zero, fun _ => hp0⟩
      · rw [(hnohitSpec hcond).1]
        exact ⟨fun hc => absurd hc (Nat.succ_ne_zero _), fun _ => hp0⟩
    · by_cases hcond : (g.board.get play.to_).player = play.player.opp ∧
          (g.board.get play.to_).count = 1
      · rw [(hhitSpec hcond).2.2 _ hif hit2 (fun h => PositionRef.noConfusion h)]
        exact hinv i
      · rw [(hnohitSpec hcond).2 _ hif hit2]
        exact hinv i

/-! ## Reachable game states -/

/-- The game states the program can reach: a fresh game on the standard
starting board (with any non-sentinel player to move and any dice), the
result of applying any play that `check_play` accepts, and a turn/roll
change that keeps the board. -/
inductive Reachable : Game → Prop
  | init (p : Player) (d : Dice) (hp : p ≠ .none) :
      Reachable (Game.mk p d Board.new)
  | step {g : Game} (play : Play) (hg : Reachable g) (hfrom : play.from_.Wf)
      (hto : play.to_.Wf) (hok : g.checkPlay play = .ok ()) :
      Reachable (g.makePlay play)
  | turn {g : Game} (p : Player) (d : Dice) (hg : Reachable g)
      (hp : p ≠ .none) : Reachable (Game.mk p d g.board)

/-- Master invariant of reachable states: the board stays well formed, the
point-ownership invariant holds, and each real player's piece total is 15. -/
theorem reachable_invariant : ∀ {g : Game}, Reachable g →
    g.board.Wf ∧ g.board.PointsInv ∧
    ∀ p : Player, p ≠ .none → g.board.playerTotal p = 15 := by
  intro g h
  induction h with
  | init p d hp =>
    refine ⟨?_, ?_, ?_⟩
    · show Board.new.Wf
      decide
    · show Board.new.PointsInv
      decide
    · intro q hq
      cases q with
      | black => show Board.new.playerTotal Player.black = 15; decide
      | white => show Board.new.playerTotal Player.white = 15; decide
      | none => exact absurd rfl hq
  | step play hg hfrom hto hok ih =>
    refine ⟨makePlay_Wf _ _ ih.1 hfrom hto hok,
      makePlay_PointsInv _ _ ih.1 hfrom hto hok ih.2.1, ?_⟩
    intro q hq
    rw [makePlay_playerTotal _ _ ih.1 hfrom hto hok ih.2.1 q hq]
    exact ih.2.2 q hq
  | turn p d hg hp ih => exact ih

/-! ## Claim C4: piece conservation -/

/-- **C4.** Piece conservation: each real player's piece total (24 points
plus bar plus rail) is 15 on the standard starting board; `make_play`
preserves it for every play accepted by `check_play` (on a well-formed board
satisfying the point-ownership invariant); and consequently it is 15 in
every reachable game state. -/
theorem conservation :
    (∀ p : Player, p ≠ .none → Board.new.playerTotal p = 15) ∧
    (∀ (g : Game) (play : Play), g.board.Wf → g.board.PointsInv →
      play.from_.Wf → play.to_.Wf → g.checkPlay play = .ok () →
      ∀ p : Player, p ≠ .none →
        (g.makePlay play).board.playerTotal p = g.board.playerTotal p) ∧
    (∀ g : Game, Reachable g → ∀ p : Player, p ≠ .none →
      g.board.playerTotal p = 15) := by
  refine ⟨?_, ?_, ?_⟩
  · intro p hp
    cases p with
    | black => decide
    | white => decide
    | none => exact absurd rfl hp
  · intro g play hwf hinv hf ht hok p hp
    exact makePlay_playerTotal g play hwf hf ht hok hinv p hp
  · intro g hg p hp
    exact (reachable_invariant hg).2.2 p hp

/-- Witness for C4: both totals are 15 on the fresh board, and a concrete
validated play (White 1/3 hitting a Black blot) preserves Black's total. -/
theorem conservation_witness :
    Board.new.playerTotal .black = 15 ∧
    (Game.mk .black (Dice.fromPair 6 4) Board.new).board.playerTotal .white = 15 ∧
    ((Game.mk .white (Dice.fromPair 2 5)
        ((Board.empty.setPoint 0 1 .white).setPoint 2 1 .black)).makePlay
        (Play.mk .white (.point ⟨0, by decide⟩) (.point ⟨2, by decide⟩))).board.playerTotal .black =
      (Game.mk .white (Dice.fromPair 2 5)
        ((Board.empty.setPoint 0 1 .white).setPoint 2 1 .black)).board.playerTotal .black :=
  ⟨conservation.1 .black (by decide),
   conservation.2.2 _ (Reachable.init .black (Dice.fromPair 6 4) (by decide))
     .white (by decide),
   conservation.2.1 _ _ (by decide) (by decide) (by decide) (by decide)
     (by decide) .black (by decide)⟩

/-! ## Claim C9: point ownership invariant -/

/-- **C9 counterexample.** The claimed invariant "count = 0 implies owner is
the None sentinel" fails for the bar and rail slots of the constructors'
boards: `Board::empty` and `Board::new` both give every bar and rail slot its
designated owning player while the count is 0. -/
theorem pointOwnership_cex :
    Board.empty.barBlack.count = 0 ∧ Board.empty.barBlack.player = .black ∧
    Board.new.barBlack.count = 0 ∧ Board.new.barBlack.player = .black ∧
    Board.new.railWhite.count = 0 ∧ Board.new.railWhite.player = .white := by
  decide

/-- **C9 (amended).** In every reachable game state the ownership invariant
holds as claimed for the 24 point slots (count 0 forces the sentinel owner,
a positive count forces a real owner), while the bar and rail slots always
carry their designated real owner — so for them the positive-count half
holds but the zero-count half does not (see the counterexample). -/
theorem pointOwnership (g : Game) (h : Reachable g) :
    g.board.PointsInv ∧
    (∀ p : Player, p ≠ .none →
      (g.board.get (.bar p)).player = p ∧ (g.board.get (.rail p)).player = p) :=
  ⟨(reachable_invariant h).2.1,
   fun _p hp => ⟨Board.get_bar_player (reachable_invariant h).1 hp,
     Board.get_rail_player (reachable_invariant h).1 hp⟩⟩

/-- Witness for C9: the amended invariant at a fresh game on the standard
board. -/
theorem pointOwnership_witness :
    (Game.mk .white (Dice.fromPair 1 2) Board.new).board.PointsInv ∧
    (∀ p : Player, p ≠ .none →
      ((Game.mk .white (Dice.fromPair 1 2) Board.new).board.get (.bar p)).player = p ∧
      ((Game.mk .white (Dice.fromPair 1 2) Board.new).board.get (.rail p)).player = p) :=
  pointOwnership _ (Reachable.init .white (Dice.fromPair 1 2) (by decide))

/-! ## Turn notation parsing (`notation.rs`) -/

/-- Helper for `str::split_whitespace`: split at every whitespace character,
keeping empty chunks (filtered in `splitWs`). -/
def splitWsAux : List Char → List (List Char)
  | [] => [[]]
  | c :: cs =>
    if c.isWhitespace then [] :: splitWsAux cs
    else
      match splitWsAux cs with
      | [] => [[c]]
      | s :: ss => (c :: s) :: ss

/-- `str::split_whitespace` (used by `Notation::turn`, `notation.rs`): the
maximal nonempty chunks between whitespace runs. -/
def splitWs (s : List Char) : List (List Char) :=
  (splitWsAux s).filter fun g => ! g.isEmpty

/-- `str::split('/')`: every `/`-separated segment, including empty ones. -/
def splitSlash : List Char → List (List Char)
  | [] => [[]]
  | c :: cs =>
    if c = '/' then [] :: splitSlash cs
    else
      match splitSlash cs with
      | [] => [[c]]
      | s :: ss => (c :: s) :: ss

/-- The regex atom `\d+`: one or more ASCII digits. -/
def isDigits (seg : List Char) : Bool :=
  ! seg.isEmpty && seg.all fun c => c.isDigit

/-- The anchored play-group regex of `Notation::turn` (`notation.rs`),
`(?:\d+|bar)(?:/\d+)*(?:/(?:\d+|off))` between `^` and `$`, phrased over the
`/`-split segments: at least two segments, the first `\d+` or `bar`, every
middle one `\d+`, the last `\d+` or `off`.  Since the regex is anchored on
both sides, `Regex::find` succeeds exactly on a full match and the matched
text is the whole group. -/
def groupMatches (g : List Char) : Bool :=
  match splitSlash g with
  | [] => false
  | [_] => false
  | first :: rest =>
    (isDigits first || first == ['b', 'a', 'r']) &&
    rest.dropLast.all isDigits &&
    (isDigits (rest.getLastD []) || rest.getLastD [] == ['o', 'f', 'f'])

/-- `usize::MAX` on the 64-bit targets the program is built for. -/
def usizeMax : Nat := 2 ^ 64 - 1

/-- `str::parse::<usize>`: the numeric value of a digit string, unless it
overflows `usize`.  `Notation::get_board_positions` calls
`.expect("pos should be an integer")` on the result, so `Option.none` here
models that panic. -/
def parseUsize (s : List Char) : Option Nat :=
  if isDigits s then
    let n := s.foldl (fun acc c => acc * 10 + (c.toNat - 48)) 0
    if n ≤ usizeMax then some n else Option.none
  else Option.none

/-- The per-segment conversion of `Notation::get_board_positions`
(`notation.rs`): `bar` and `off` map to the player's bar and rail, any other
segment is parsed as an integer and pushed through `NormalizedPosition::new`
and `to_index` (`position.rs`; the same definitions as `location.rs`).  The
outer `Option` models the `expect` panic when the integer parse fails. -/
def segSpace (player : Player) (seg : List Char) :
    Option (Except Error PositionRef) :=
  if seg == ['b', 'a', 'r'] then some (.ok (.bar player))
  else if seg == ['o', 'f', 'f'] then some (.ok (.rail player))
  else
    match parseUsize seg with
    | Option.none => Option.none   -- Rust: `.expect("pos should be an integer")`
    | some n =>
      match NormalizedLocation.new n player with
      | .error e => some (.error e)
      | .ok norm =>
        match norm.toIndex with
        | .error e => some (.error e)
        | .ok i => some (.ok (.point i))

/-- The `collect::<Result<Vec<_>, _>>` over the segments of one group:
left to right, first conversion error wins, a panic anywhere aborts. -/
def boardPositionsAux (player : Player) :
    List (List Char) → Option (Except Error (List PositionRef))
  | [] => some (.ok [])
  | seg :: rest =>
    match segSpace player seg with
    | Option.none => Option.none
    | some (.error e) => some (.error e)
    | some (.ok sp) =>
      match boardPositionsAux player rest with
      | Option.none => Option.none
      | some (.error e) => some (.error e)
      | some (.ok sps) => some (.ok (sp :: sps))

/-- `Notation::get_board_positions` (`notation.rs`). -/
def getBoardPositions (g : List Char) (player : Player) :
    Option (Except Error (List PositionRef)) :=
  boardPositionsAux player (splitSlash g)

/-- `tuple_windows`: consecutive position pairs become plays. -/
def playWindows (player : Player) : List PositionRef → List Play
  | [] => []
  | [_] => []
  | a :: b :: rest => ⟨player, a, b⟩ :: playWindows player (b :: rest)

/-- `Notation::get_play_group` (`notation.rs`). -/
def getPlayGroup (g : List Char) (player : Player) :
    Option (Except Error (List Play)) :=
  match getBoardPositions g player with
  | Option.none => Option.none
  | some (.error e) => some (.error e)
  | some (.ok sps) => some (.ok (playWindows player sps))

/-- The group loop of `Notation::turn` (`notation.rs`): each whitespace
group must fully match the play-group regex (else the invalid-notation
error with the group's own text) and is then converted to plays; the
`flatten_ok().collect::<Result<..>>()` pulls the groups lazily left to
right, so the first failure — grammar, conversion error, or panic — wins. -/
def turnGroupsAux (player : Player) :
    List (List Char) → Option (Except Error (List Play))
  | [] => some (.ok [])
  | g :: rest =>
    if groupMatches g then
      match getPlayGroup g player with
      | Option.none => Option.none
      | some (.error e) => some (.error e)
      | some (.ok plays) =>
        match turnGroupsAux player rest with
        | Option.none => Option.none
        | some (.error e) => some (.error e)
        | some (.ok more) => some (.ok (plays ++ more))
    else some (.error (.invalidNotation (String.mk g)))

/-- `Notation::turn` (`notation.rs`): split on whitespace, process the
groups, wrap the concatenated plays in a `Turn`.  `Option.none` models a
panic escaping the function. -/
def parseTurn (s : List Char) (player : Player) :
    Option (Except Error Turn) :=
  match turnGroupsAux player (splitWs s) with
  | Option.none => Option.none
  | some (.error e) => some (.error e)
  | some (.ok plays) => some (.ok ⟨plays⟩)

/-! ## Claim C7: per-group notation rejection -/

/-- **C7 counterexample.** In `30/1 3/bar/5` (Black to act) the second group
`3/bar/5` fails the grammar (`bar` in a non-terminal position), yet the
parse does not return the invalid-notation error with that group's text: the
first group `30/1` matches the grammar and its conversion error
(`InvalidNormalizedPosition(30)`) is reported first. -/
theorem turnParse_cex :
    splitWs ("30/1 3/bar/5".data) = ["30/1".data, "3/bar/5".data] ∧
    groupMatches ("30/1".data) = true ∧
    groupMatches ("3/bar/5".data) = false ∧
    parseTurn ("30/1 3/bar/5".data) .black =
      some (.error (.invalidNormalizedPosition 30 .black)) ∧
    parseTurn ("30/1 3/bar/5".data) .black ≠
      some (.error (.invalidNotation "3/bar/5")) := by
  decide

theorem turnGroupsAux_err (player : Player) :
    ∀ (pre : List (List Char)) (g : List Char) (rest : List (List Char)),
    (∀ p ∈ pre, groupMatches p = true ∧
      ∃ plays, getPlayGroup p player = some (Except.ok plays)) →
    groupMatches g = false →
    turnGroupsAux player (pre ++ g :: rest) =
      some (.error (.invalidNotation (String.mk g))) := by
  intro pre
  induction pre with
  | nil =>
    intro g rest _hpre hbad
    simp [turnGroupsAux, hbad]
  | cons p pre ih =>
    intro g rest hpre hbad
    obtain ⟨hm, plays, hp⟩ := hpre p (List.mem_cons_self p pre)
    have ih' := ih g rest (fun q hq => hpre q (List.mem_cons_of_mem p hq)) hbad
    simp [turnGroupsAux, hm, hp, ih']

/-- **C7 (amended).** The groups are processed left to right; a group
failing the grammar makes the whole parse fail with the invalid-notation
error carrying exactly that group's original text, provided every earlier
group both matches the grammar and converts to board positions without a
range error or panic.  (Without that proviso the claim is false: an earlier
matching group's conversion error is reported instead — see the
counterexample.) -/
theorem turnParse_amended (s : List Char) (player : Player)
    (pre : List (List Char)) (g : List Char) (rest : List (List Char))
    (hsplit : splitWs s = pre ++ g :: rest)
    (hpre : ∀ p ∈ pre, groupMatches p = true ∧
      ∃ plays, getPlayGroup p player = some (Except.ok plays))
    (hbad : groupMatches g = false) :
    parseTurn s player = some (.error (.invalidNotation (String.mk g))) := by
  have h := turnGroupsAux_err player pre g rest hpre hbad
  simp [parseTurn, hsplit, h]

/-- Witness for C7: in `1/2 3/bar/5` (Black) the first group parses fully,
so the grammar failure of `3/bar/5` is reported with its own text. -/
theorem turnParse_amended_witness :
    parseTurn ("1/2 3/bar/5".data) .black =
      some (.error (.invalidNotation (String.mk ("3/bar/5".data)))) :=
  turnParse_amended ("1/2 3/bar/5".data) .black ["1/2".data] ("3/bar/5".data)
    [] (by decide)
    (by
      intro p hp
      have hp' : p = "1/2".data := by
        simpa using hp
      subst hp'
      exact ⟨by decide,
        ⟨[Play.mk .black (.point ⟨0, by decide⟩) (.point ⟨1, by decide⟩)],
          by decide⟩⟩)
    (by decide)

/-! ## Claim C10: parser totality -/

/-- **C10.** The notation parser is not total: a grammar-conformant group
whose numeric token exceeds `usize::MAX` (23 nines) makes
`pos.parse::<usize>().expect("pos should be an integer")` panic inside
`Notation::get_board_positions` instead of producing a typed error —
modelled by the parse evaluating to `Option.none` rather than to any
`some` result. -/
theorem parse_overflow_panics :
    groupMatches ("99999999999999999999999/1".data) = true ∧
    parseTurn ("99999999999999999999999/1".data) .black = Option.none := by
  decide

/-! ## Toolkit for the turn enumeration (claim C1) -/

theorem normLoc_new_ok {d : Nat} (hd : d ≤ 25) {p : Player} (hp : p ≠ .none) :
    NormalizedLocation.new d p = .ok ⟨d, p⟩ := by
  rw [NormalizedLocation.new, if_neg hp, if_pos hd]

theorem denorm_normalize_black {d : Nat} (hd : d ≤ 25) :
    DenormalizedLocation.normalize d .black = ⟨d, .black⟩ := by
  show (NormalizedLocation.new d .black).toOption.getD ⟨0, .none⟩ = _
  rw [normLoc_new_ok hd (fun h => Player.noConfusion h)]
  rfl

theorem denorm_normalize_white {d : Nat} (hd : d ≤ 25) :
    DenormalizedLocation.normalize d .white = ⟨25 - d, .white⟩ := by
  show (NormalizedLocation.new (25 - d) .white).toOption.getD ⟨0, .none⟩ = _
  rw [normLoc_new_ok (by omega) (fun h => Player.noConfusion h)]
  rfl

theorem toIndex_black {v : Nat} (h1 : 1 ≤ v) (h2 : v ≤ 24) :
    NormalizedLocation.toIndex ⟨v, .black⟩ = .ok ⟨v - 1, by omega⟩ := by
  rw [NormalizedLocation.toIndex]
  simp only []
  rw [if_neg (by omega : ¬(v = 0 ∨ v = 25))]
  rw [IndexLocation.tryFrom, dif_pos (by omega : v - 1 < 24)]

theorem toIndex_white {v : Nat} (h1 : 1 ≤ v) (h2 : v ≤ 24) :
    NormalizedLocation.toIndex ⟨v, .white⟩ = .ok ⟨24 - v, by omega⟩ := by
  rw [NormalizedLocation.toIndex]
  simp only []
  rw [if_neg (by omega : ¬(v = 0 ∨ v = 25))]
  rw [IndexLocation.tryFrom, dif_pos (by omega : 25 - v - 1 < 24)]
  exact congrArg Except.ok (Fin.ext (show 25 - v - 1 = 24 - v by omega))

theorem toIndex_zero (p : Player) :
    NormalizedLocation.toIndex ⟨0, p⟩ = .error (.invalidIndexPosition 0) := by
  rw [NormalizedLocation.toIndex]
  simp only []
  rw [if_pos (Or.inl trivial)]

theorem Dice.check_mem {d : Dice} {len : Nat} (h : d.check len = true) :
    len ∈ d.avail := by
  simpa [Dice.check] using h

theorem Dice.not_mem_of_check_false {d : Dice} {len : Nat}
    (h : d.check len = false) : len ∉ d.avail := by
  simpa [Dice.check] using h

theorem Dice.maxAvail_mem {d : Dice} {m : Nat} (h : d.maxAvail = some m) :
    m ∈ d.avail :=
  List.max?_mem (fun a b => max_choice a b) h

/-- `make_play` on a validated play consumes exactly one die. -/
theorem makePlay_dice_length (g : Game) (play : Play)
    (hok : g.checkPlay play = .ok ()) :
    (g.makePlay play).currentRoll.avail.length + 1 =
      g.currentRoll.avail.length := by
  have facts := (checkPlay_ok_iff g play).mp hok
  rw [Game.makePlay_currentRoll]
  by_cases hc : g.currentRoll.check
      ((g.board.get play.to_).distance (g.board.get play.from_)) = true
  · rw [if_pos hc]
    have hmem := Dice.check_mem hc
    show (g.currentRoll.avail.erase _).length + 1 = _
    rw [List.length_erase_of_mem hmem]
    have hnz := List.length_pos_of_mem hmem
    omega
  · rw [if_neg hc]
    rcases facts.length with hcheck | ⟨_, _, _, _, _, m, hm, _⟩
    · exact absurd hcheck hc
    · rw [hm]
      have hmem := Dice.maxAvail_mem hm
      show (g.currentRoll.avail.erase m).length + 1 = _
      rw [List.length_erase_of_mem hmem]
      have hnz := List.length_pos_of_mem hmem
      omega

/-- An available play needs an available die. -/
theorem getAvailablePlays_dice_nonempty {g : Game}
    (h : ¬ g.getAvailablePlays.isEmpty = true) :
    g.currentRoll.anyAvailable = true := by
  obtain ⟨play, hplay⟩ := List.exists_mem_of_ne_nil g.getAvailablePlays
    (fun hnil => h (by rw [hnil]; rfl))
  simp only [Game.getAvailablePlays] at hplay
  obtain ⟨fromRef, _, hin⟩ := List.mem_flatMap.mp hplay
  obtain ⟨roll, hroll, _⟩ := List.mem_filterMap.mp hin
  have hne : g.currentRoll.avail ≠ [] := List.ne_nil_of_mem hroll
  rw [Dice.anyAvailable]
  cases hav : g.currentRoll.avail with
  | nil => exact absurd hav hne
  | cons a t => rfl

/-- Evaluation of the candidate-play closure of `get_available_plays` at a
roll whose destination arithmetic lands on the given play. -/
theorem enum_roll_eval (g : Game) (play : Play) (roll fv tv : Nat)
    (hok : g.checkPlay play = .ok ())
    (hcur : g.currentPlayer = play.player)
    (hval : ((g.board.get play.from_).location.normalize g.currentPlayer).val
      = fv)
    (hto : (if roll ≤ fv then NormalizedLocation.new (fv - roll) g.currentPlayer
        else NormalizedLocation.new 0 g.currentPlayer)
      = .ok ⟨tv, play.player⟩)
    (hdest : (match NormalizedLocation.toIndex ⟨tv, play.player⟩ with
      | .ok i => PositionRef.point i
      | .error _ => PositionRef.rail g.currentPlayer) = play.to_) :
    (match (if roll ≤ ((g.board.get play.from_).location.normalize
          g.currentPlayer).val then
        NormalizedLocation.new
          (((g.board.get play.from_).location.normalize g.currentPlayer).val
            - roll) g.currentPlayer
      else NormalizedLocation.new 0 g.currentPlayer) with
    | .error _ => Option.none
    | .ok nl =>
      match g.checkPlay ⟨g.currentPlayer, play.from_,
          match nl.toIndex with
          | .ok i => PositionRef.point i
          | .error _ => PositionRef.rail g.currentPlayer⟩ with
      | .ok _ => some (⟨g.currentPlayer, play.from_,
          match nl.toIndex with
          | .ok i => PositionRef.point i
          | .error _ => PositionRef.rail g.currentPlayer⟩ : Play)
      | .error _ => Option.none) = some play := by
  rw [hval, hto]
  simp only []
  rw [hdest, hcur]
  have hPe : (⟨play.player, play.from_, play.to_⟩ : Play) = play := rfl
  rw [hPe, hok]

/-- Every play that `check_play` accepts is produced by
`Game::get_available_plays`: the origin is among the candidate origins, and
the normalized-coordinate arithmetic at the matching roll (the exact pip
length, or the maximum die for an over-roll bear-off) reconstructs the
play's destination. -/
theorem checkPlay_mem_available (g : Game) (play : Play) (hwf : g.board.Wf)
    (hfrom : play.from_.Wf) (hto : play.to_.Wf)
    (hok : g.checkPlay play = .ok ()) :
    play ∈ g.getAvailablePlays := by
  have facts := (checkPlay_ok_iff g play).mp hok
  have hdir : play.isValidDirection g.board = true := not_not.mp facts.direction
  have hp0 : play.player ≠ .none := isValidDirection_player_ne_none hdir
  have hcur : g.currentPlayer = play.player := facts.turnOf
  have hcpne : g.currentPlayer ≠ Player.none := by rw [hcur]; exact hp0
  have horig : play.from_ ∈
      (if 0 < (g.board.bar g.currentPlayer).count then
        ([.bar g.currentPlayer] : List PositionRef)
      else
        (List.finRange 24).filterMap fun i =>
          if (g.board.get (.point i)).player = g.currentPlayer then
            some (.point i)
          else Option.none) := by
    by_cases hbar : 0 < (g.board.bar g.currentPlayer).count
    · rw [if_pos hbar]
      rcases checkOk_from_shape hwf hfrom hok with hb | ⟨i, hp⟩
      · rw [hb, hcur]
        exact List.mem_singleton.mpr rfl
      · exfalso
        refine facts.barCleared ⟨?_, ?_⟩
        · rw [← hcur]; exact hbar
        · rw [hp]; exact fun hh => Bool.noConfusion hh
    · rw [if_neg hbar]
      rcases checkOk_from_shape hwf hfrom hok with hb | ⟨i, hp⟩
      · exfalso
        apply facts.fromOccupied
        rw [hb]
        show (g.board.bar play.player).count = 0
        rw [← hcur]
        omega
      · have hown : (g.board.get (.point i)).player = g.currentPlayer := by
          rw [← hp, not_ne_iff.mp facts.fromOwned, hcur]
        refine List.mem_filterMap.mpr ⟨i, List.mem_finRange i, ?_⟩
        rw [if_pos hown, hp]
  simp only [Game.getAvailablePlays]
  refine List.mem_flatMap.mpr ⟨play.from_, horig, ?_⟩
  rcases facts.length with hcheck | ⟨hnochk, hrail, i0, hidx, hbeh, m, hmax, hle⟩
  · -- the exact pip length is available
    refine List.mem_filterMap.mpr
      ⟨(g.board.get play.to_).distance (g.board.get play.from_),
        Dice.check_mem hcheck, ?_⟩
    rcases checkOk_from_shape hwf hfrom hok with hfb | ⟨i, hfp⟩ <;>
      rcases checkOk_to_shape hwf hfrom hto hok with htr | ⟨j, htp⟩
    · -- from the bar, bearing off
      cases hpp : play.player with
      | none => exact absurd hpp hp0
      | black =>
        have hfl : (g.board.get play.from_).location = 25 := by
          rw [hfb, hpp]; exact hwf.2.2.1
        have htl : (g.board.get play.to_).location = 0 := by
          rw [htr, hpp]; exact hwf.2.2.2.2.2.2.1
        have hlenv : (g.board.get play.to_).distance (g.board.get play.from_)
            = 25 := by
          rw [Position.distance, htl, hfl]
          decide
        have hval : ((g.board.get play.from_).location.normalize
            g.currentPlayer).val = 25 := by
          rw [hfl, hcur, hpp, denorm_normalize_black (by omega)]
        have hto2 : (if (g.board.get play.to_).distance
              (g.board.get play.from_) ≤ 25 then
              NormalizedLocation.new (25 - (g.board.get play.to_).distance
                (g.board.get play.from_)) g.currentPlayer
            else NormalizedLocation.new 0 g.currentPlayer)
            = .ok ⟨0, play.player⟩ := by
          rw [hlenv, if_pos (le_refl 25), show (25 : Nat) - 25 = 0 from rfl,
            normLoc_new_ok (by omega) hcpne, hcur]
        have hdest : (match NormalizedLocation.toIndex ⟨0, play.player⟩ with
            | .ok i => PositionRef.point i
            | .error _ => PositionRef.rail g.currentPlayer) = play.to_ := by
          rw [toIndex_zero, hcur, htr]
        exact enum_roll_eval g play _ 25 0 hok hcur hval hto2 hdest
      | white =>
        have hfl : (g.board.get play.from_).location = 0 := by
          rw [hfb, hpp]; exact hwf.2.2.2.2.1
        have htl : (g.board.get play.to_).location = 25 := by
          rw [htr, hpp]; exact hwf.2.2.2.2.2.2.2.2.1
        have hlenv : (g.board.get play.to_).distance (g.board.get play.from_)
            = 25 := by
          rw [Position.distance, htl, hfl]
          decide
        have hval : ((g.board.get play.from_).location.normalize
            g.currentPlayer).val = 25 := by
          rw [hfl, hcur, hpp, denorm_normalize_white (by omega)]
        have hto2 : (if (g.board.get play.to_).distance
              (g.board.get play.from_) ≤ 25 then
              NormalizedLocation.new (25 - (g.board.get play.to_).distance
                (g.board.get play.from_)) g.currentPlayer
            else NormalizedLocation.new 0 g.currentPlayer)
            = .ok ⟨0, play.player⟩ := by
          rw [hlenv, if_pos (le_refl 25), show (25 : Nat) - 25 = 0 from rfl,
            normLoc_new_ok (by omega) hcpne, hcur]
        have hdest : (match NormalizedLocation.toIndex ⟨0, play.player⟩ with
            | .ok i => PositionRef.point i
            | .error _ => PositionRef.rail g.currentPlayer) = play.to_ := by
          rw [toIndex_zero, hcur, htr]
        exact enum_roll_eval g play _ 25 0 hok hcur hval hto2 hdest
    · -- from the bar, to a point
      have hj := j.isLt
      cases hpp : play.player with
      | none => exact absurd hpp hp0
      | black =>
        have hfl : (g.board.get play.from_).location = 25 := by
          rw [hfb, hpp]; exact hwf.2.2.1
        have htl : (g.board.get play.to_).location = j.val + 1 := by
          rw [htp]; exact Board.get_point_location hwf j
        have hlenv : (g.board.get play.to_).distance (g.board.get play.from_)
            = 24 - j.val := by
          rw [Position.distance, htl, hfl]; simp only [Nat.dist]; omega
        have hval : ((g.board.get play.from_).location.normalize
            g.currentPlayer).val = 25 := by
          rw [hfl, hcur, hpp, denorm_normalize_black (by omega)]
        have hto2 : (if (g.board.get play.to_).distance
              (g.board.get play.from_) ≤ 25 then
              NormalizedLocation.new (25 - (g.board.get play.to_).distance
                (g.board.get play.from_)) g.currentPlayer
            else NormalizedLocation.new 0 g.currentPlayer)
            = .ok ⟨j.val + 1, play.player⟩ := by
          rw [hlenv, if_pos (by omega),
            show 25 - (24 - j.val) = j.val + 1 from by omega,
            normLoc_new_ok (by omega) hcpne, hcur]
        have hdest : (match NormalizedLocation.toIndex
              ⟨j.val + 1, play.player⟩ with
            | .ok i => PositionRef.point i
            | .error _ => PositionRef.rail g.currentPlayer) = play.to_ := by
          rw [htp, hpp, toIndex_black (by omega) (by omega)]
          exact congrArg PositionRef.point
            (Fin.ext (show j.val + 1 - 1 = j.val by omega))
        exact enum_roll_eval g play _ 25 (j.val + 1) hok hcur hval hto2 hdest
      | white =>
        have hfl : (g.board.get play.from_).location = 0 := by
          rw [hfb, hpp]; exact hwf.2.2.2.2.1
        have htl : (g.board.get play.to_).location = j.val + 1 := by
          rw [htp]; exact Board.get_point_location hwf j
        have hlenv : (g.board.get play.to_).distance (g.board.get play.from_)
            = j.val + 1 := by
          rw [Position.distance, htl, hfl]; simp only [Nat.dist]; omega
        have hval : ((g.board.get play.from_).location.normalize
            g.currentPlayer).val = 25 := by
          rw [hfl, hcur, hpp, denorm_normalize_white (by omega)]
        have hto2 : (if (g.board.get play.to_).distance
              (g.board.get play.from_) ≤ 25 then
              NormalizedLocation.new (25 - (g.board.get play.to_).distance
                (g.board.get play.from_)) g.currentPlayer
            else NormalizedLocation.new 0 g.currentPlayer)
            = .ok ⟨24 - j.val, play.player⟩ := by
          rw [hlenv, if_pos (by omega),
            show 25 - (j.val + 1) = 24 - j.val from by omega,
            normLoc_new_ok (by omega) hcpne, hcur]
        have hdest : (match NormalizedLocation.toIndex
              ⟨24 - j.val, play.player⟩ with
            | .ok i => PositionRef.point i
            | .error _ => PositionRef.rail g.currentPlayer) = play.to_ := by
          rw [htp, hpp, toIndex_white (by omega) (by omega)]
          exact congrArg PositionRef.point
            (Fin.ext (show 24 - (24 - j.val) = j.val by omega))
        exact enum_roll_eval g play _ 25 (24 - j.val) hok hcur hval hto2 hdest
    · -- from a point, bearing off
      have hi := i.isLt
      cases hpp : play.player with
      | none => exact absurd hpp hp0
      | black =>
        have hfl : (g.board.get play.from_).location = i.val + 1 := by
          rw [hfp]; exact Board.get_point_location hwf i
        have htl : (g.board.get play.to_).location = 0 := by
          rw [htr, hpp]; exact hwf.2.2.2.2.2.2.1
        have hlenv : (g.board.get play.to_).distance (g.board.get play.from_)
            = i.val + 1 := by
          rw [Position.distance, htl, hfl]; simp only [Nat.dist]; omega
        have hval : ((g.board.get play.from_).location.normalize
            g.currentPlayer).val = i.val + 1 := by
          rw [hfl, hcur, hpp, denorm_normalize_black (by omega)]
        have hto2 : (if (g.board.get play.to_).distance
              (g.board.get play.from_) ≤ i.val + 1 then
              NormalizedLocation.new (i.val + 1 -
                (g.board.get play.to_).distance (g.board.get play.from_))
                g.currentPlayer
            else NormalizedLocation.new 0 g.currentPlayer)
            = .ok ⟨0, play.player⟩ := by
          rw [hlenv, if_pos (le_refl _),
            show i.val + 1 - (i.val + 1) = 0 from by omega,
            normLoc_new_ok (by omega) hcpne, hcur]
        have hdest : (match NormalizedLocation.toIndex ⟨0, play.player⟩ with
            | .ok i => PositionRef.point i
            | .error _ => PositionRef.rail g.currentPlayer) = play.to_ := by
          rw [toIndex_zero, hcur, htr]
        exact enum_roll_eval g play _ (i.val + 1) 0 hok hcur hval hto2 hdest
      | white =>
        have hfl : (g.board.get play.from_).location = i.val + 1 := by
          rw [hfp]; exact Board.get_point_location hwf i
        have htl : (g.board.get play.to_).location = 25 := by
          rw [htr, hpp]; exact hwf.2.2.2.2.2.2.2.2.1
        have hlenv : (g.board.get play.to_).distance (g.board.get play.from_)
            = 24 - i.val := by
          rw [Position.distance, htl, hfl]; simp only [Nat.dist]; omega
        have hval : ((g.board.get play.from_).location.normalize
            g.currentPlayer).val = 24 - i.val := by
          rw [hfl, hcur, hpp, denorm_normalize_white (by omega)]
          show 25 - (i.val + 1) = 24 - i.val
          omega
        have hto2 : (if (g.board.get play.to_).distance
              (g.board.get play.from_) ≤ 24 - i.val then
              NormalizedLocation.new (24 - i.val -
                (g.board.get play.to_).distance (g.board.get play.from_))
                g.currentPlayer
            else NormalizedLocation.new 0 g.currentPlayer)
            = .ok ⟨0, play.player⟩ := by
          rw [hlenv, if_pos (le_refl _),
            show 24 - i.val - (24 - i.val) = 0 from by omega,
            normLoc_new_ok (by omega) hcpne, hcur]
        have hdest : (match NormalizedLocation.toIndex ⟨0, play.player⟩ with
            | .ok i => PositionRef.point i
            | .error _ => PositionRef.rail g.currentPlayer) = play.to_ := by
          rw [toIndex_zero, hcur, htr]
        exact enum_roll_eval g play _ (24 - i.val) 0 hok hcur hval hto2 hdest
    · -- from a point, to a point
      have hi := i.isLt
      have hj := j.isLt
      cases hpp : play.player with
      | none => exact absurd hpp hp0
      | black =>
        have hfl : (g.board.get play.from_).location = i.val + 1 := by
          rw [hfp]; exact Board.get_point_location hwf i
        have htl : (g.board.get play.to_).location = j.val + 1 := by
          rw [htp]; exact Board.get_point_location hwf j
        have hdn := hdir
        simp only [Play.isValidDirection, hpp, decide_eq_true_eq] at hdn
        rw [htl, hfl] at hdn
        have hdn2 : (j.val + 1 : Nat) < i.val + 1 := hdn
        have hlenv : (g.board.get play.to_).distance (g.board.get play.from_)
            = i.val - j.val := by
          rw [Position.distance, htl, hfl]; simp only [Nat.dist]; omega
        have hval : ((g.board.get play.from_).location.normalize
            g.currentPlayer).val = i.val + 1 := by
          rw [hfl, hcur, hpp, denorm_normalize_black (by omega)]
        have hto2 : (if (g.board.get play.to_).distance
              (g.board.get play.from_) ≤ i.val + 1 then
              NormalizedLocation.new (i.val + 1 -
                (g.board.get play.to_).distance (g.board.get play.from_))
                g.currentPlayer
            else NormalizedLocation.new 0 g.currentPlayer)
            = .ok ⟨j.val + 1, play.player⟩ := by
          rw [hlenv, if_pos (by omega),
            show i.val + 1 - (i.val - j.val) = j.val + 1 from by omega,
            normLoc_new_ok (by omega) hcpne, hcur]
        have hdest : (match NormalizedLocation.toIndex
              ⟨j.val + 1, play.player⟩ with
            | .ok i => PositionRef.point i
            | .error _ => PositionRef.rail g.currentPlayer) = play.to_ := by
          rw [htp, hpp, toIndex_black (by omega) (by omega)]
          exact congrArg PositionRef.point
            (Fin.ext (show j.val + 1 - 1 = j.val by omega))
        exact enum_roll_eval g play _ (i.val + 1) (j.val + 1) hok hcur hval
          hto2 hdest
      | white =>
        have hfl : (g.board.get play.from_).location = i.val + 1 := by
          rw [hfp]; exact Board.get_point_location hwf i
        have htl : (g.board.get play.to_).location = j.val + 1 := by
          rw [htp]; exact Board.get_point_location hwf j
        have hdn := hdir
        simp only [Play.isValidDirection, hpp, decide_eq_true_eq] at hdn
        rw [htl, hfl] at hdn
        have hdn2 : (i.val + 1 : Nat) < j.val + 1 := hdn
        have hlenv : (g.board.get play.to_).distance (g.board.get play.from_)
            = j.val - i.val := by
          rw [Position.distance, htl, hfl]; simp only [Nat.dist]; omega
        have hval : ((g.board.get play.from_).location.normalize
            g.currentPlayer).val = 24 - i.val := by
          rw [hfl, hcur, hpp, denorm_normalize_white (by omega)]
          show 25 - (i.val + 1) = 24 - i.val
          omega
        have hto2 : (if (g.board.get play.to_).distance
              (g.board.get play.from_) ≤ 24 - i.val then
              NormalizedLocation.new (24 - i.val -
                (g.board.get play.to_).distance (g.board.get play.from_))
                g.currentPlayer
            else NormalizedLocation.new 0 g.currentPlayer)
            = .ok ⟨24 - j.val, play.player⟩ := by
          rw [hlenv, if_pos (by omega),
            show 24 - i.val - (j.val - i.val) = 24 - j.val from by omega,
            normLoc_new_ok (by omega) hcpne, hcur]
        have hdest : (match NormalizedLocation.toIndex
              ⟨24 - j.val, play.player⟩ with
            | .ok i => PositionRef.point i
            | .error _ => PositionRef.rail g.currentPlayer) = play.to_ := by
          rw [htp, hpp, toIndex_white (by omega) (by omega)]
          exact congrArg PositionRef.point
            (Fin.ext (show 24 - (24 - j.val) = j.val by omega))
        exact enum_roll_eval g play _ (24 - i.val) (24 - j.val) hok hcur hval
          hto2 hdest
  · -- over-roll bear-off: consume the maximum die
    rcases checkOk_from_shape hwf hfrom hok with hfb | ⟨i, hfp⟩
    · -- the bar is not indexable, so this case cannot arise
      exfalso
      cases hpp : play.player with
      | none => exact absurd hpp hp0
      | black =>
        have hfl : (g.board.get play.from_).location = 25 := by
          rw [hfb, hpp]; exact hwf.2.2.1
        rw [hfl] at hidx
        rw [show DenormalizedLocation.toIndex 25 =
          Except.error (Error.invalidIndexPosition 25) from rfl] at hidx
        exact Except.noConfusion hidx
      | white =>
        have hfl : (g.board.get play.from_).location = 0 := by
          rw [hfb, hpp]; exact hwf.2.2.2.2.1
        rw [hfl] at hidx
        rw [show DenormalizedLocation.toIndex 0 =
          Except.error (Error.invalidIndexPosition 0) from rfl] at hidx
        exact Except.noConfusion hidx
    · have htr : play.to_ = .rail play.player :=
        direction_rail_own hwf hfrom hto hdir hrail
      have hmmem : m ∈ g.currentRoll.avail := Dice.maxAvail_mem hmax
      have hnm : (g.board.get play.to_).distance (g.board.get play.from_) ∉
          g.currentRoll.avail := Dice.not_mem_of_check_false hnochk
      have hlt : (g.board.get play.to_).distance (g.board.get play.from_)
          < m := by
        have hne : (g.board.get play.to_).distance (g.board.get play.from_)
            ≠ m := fun he => hnm (he ▸ hmmem)
        omega
      refine List.mem_filterMap.mpr ⟨m, hmmem, ?_⟩
      have hi := i.isLt
      cases hpp : play.player with
      | none => exact absurd hpp hp0
      | black =>
        have hfl : (g.board.get play.from_).location = i.val + 1 := by
          rw [hfp]; exact Board.get_point_location hwf i
        have htl : (g.board.get play.to_).location = 0 := by
          rw [htr, hpp]; exact hwf.2.2.2.2.2.2.1
        have hlenv : (g.board.get play.to_).distance (g.board.get play.from_)
            = i.val + 1 := by
          rw [Position.distance, htl, hfl]; simp only [Nat.dist]; omega
        have hval : ((g.board.get play.from_).location.normalize
            g.currentPlayer).val = i.val + 1 := by
          rw [hfl, hcur, hpp, denorm_normalize_black (by omega)]
        have hto2 : (if m ≤ i.val + 1 then
              NormalizedLocation.new (i.val + 1 - m) g.currentPlayer
            else NormalizedLocation.new 0 g.currentPlayer)
            = .ok ⟨0, play.player⟩ := by
          rw [if_neg (by rw [hlenv] at hlt; omega),
            normLoc_new_ok (by omega) hcpne, hcur]
        have hdest : (match NormalizedLocation.toIndex ⟨0, play.player⟩ with
            | .ok i => PositionRef.point i
            | .error _ => PositionRef.rail g.currentPlayer) = play.to_ := by
          rw [toIndex_zero, hcur, htr]
        exact enum_roll_eval g play m (i.val + 1) 0 hok hcur hval hto2 hdest
      | white =>
        have hfl : (g.board.get play.from_).location = i.val + 1 := by
          rw [hfp]; exact Board.get_point_location hwf i
        have htl : (g.board.get play.to_).location = 25 := by
          rw [htr, hpp]; exact hwf.2.2.2.2.2.2.2.2.1
        have hlenv : (g.board.get play.to_).distance (g.board.get play.from_)
            = 24 - i.val := by
          rw [Position.distance, htl, hfl]; simp only [Nat.dist]; omega
        have hval : ((g.board.get play.from_).location.normalize
            g.currentPlayer).val = 24 - i.val := by
          rw [hfl, hcur, hpp, denorm_normalize_white (by omega)]
          show 25 - (i.val + 1) = 24 - i.val
          omega
        have hto2 : (if m ≤ 24 - i.val then
              NormalizedLocation.new (24 - i.val - m) g.currentPlayer
            else NormalizedLocation.new 0 g.currentPlayer)
            = .ok ⟨0, play.player⟩ := by
          rw [if_neg (by rw [hlenv] at hlt; omega),
            normLoc_new_ok (by omega) hcpne, hcur]
        have hdest : (match NormalizedLocation.toIndex ⟨0, play.player⟩ with
            | .ok i => PositionRef.point i
            | .error _ => PositionRef.rail g.currentPlayer) = play.to_ := by
          rw [toIndex_zero, hcur, htr]
        exact enum_roll_eval g play m (24 - i.val) 0 hok hcur hval hto2 hdest

/-- A sequentially valid, non-extendable play list is among the turns
enumerated by `_get_available_turns`, given fuel exceeding the number of
remaining dice. -/
theorem checkTurnPlays_mem_aux :
    ∀ (fuel : Nat) (g : Game) (plays : List Play) (after : Game),
    g.board.Wf → (∀ p ∈ plays, p.Wf) →
    g.checkTurnPlays plays = .ok after →
    ¬(after.currentRoll.anyAvailable = true ∧
      ¬ after.getAvailablePlays.isEmpty = true) →
    g.currentRoll.avail.length < fuel →
    plays ∈ g.availableTurnsAux fuel := by
  intro fuel
  induction fuel with
  | zero =>
    intro g plays after _ _ _ _ hlt
    exact absurd hlt (Nat.not_lt_zero _)
  | succ fuel ih =>
    intro g plays after hwf hpwf hplays hfin hlt
    cases plays with
    | nil =>
      have hag : g = after := by
        simpa [Game.checkTurnPlays] using hplays
      subst hag
      rw [Game.availableTurnsAux]
      by_cases hemp : g.getAvailablePlays.isEmpty = true
      · rw [if_pos hemp]
        exact List.mem_singleton.mpr rfl
      · exact absurd ⟨getAvailablePlays_dice_nonempty hemp, hemp⟩ hfin
    | cons play rest =>
      cases hc : g.checkPlay play with
      | error e => simp [Game.checkTurnPlays, hc] at hplays
      | ok u =>
        cases u
        have hrest : (g.makePlay play).checkTurnPlays rest = .ok after := by
          simpa [Game.checkTurnPlays, hc] using hplays
        have hpwfh : play.Wf := hpwf play (List.mem_cons_self play rest)
        have hmemp : play ∈ g.getAvailablePlays :=
          checkPlay_mem_available g play hwf hpwfh.1 hpwfh.2 hc
        have hlt2 : (g.makePlay play).currentRoll.avail.length < fuel := by
          have hd := makePlay_dice_length g play hc
          omega
        have hwf2 := makePlay_Wf g play hwf hpwfh.1 hpwfh.2 hc
        have ihm := ih (g.makePlay play) rest after hwf2
          (fun q hq => hpwf q (List.mem_cons_of_mem _ hq)) hrest hfin hlt2
        rw [Game.availableTurnsAux]
        have hne : ¬ g.getAvailablePlays.isEmpty = true := by
          intro hemp
          rw [List.isEmpty_iff] at hemp
          rw [hemp] at hmemp
          exact List.not_mem_nil _ hmemp
        rw [if_neg hne]
        exact List.mem_flatMap.mpr ⟨play, hmemp,
          List.mem_map.mpr ⟨rest, ihm, rfl⟩⟩

/-! ## Claim C1: turn-level maximality -/

/-- **C1.** For a game state with a well-formed board and a candidate turn
(sentinel-free plays) whose plays all validate in sequence and which leaves
no usable die while a legal play remains, `check_turn` accepts exactly when
the turn's total pip distance equals the maximum total distance over the
enumerated legal turns; a turn with any other total — in particular a
smaller one — is rejected with the non-maximal-turn error. -/
theorem turn_maximality (g : Game) (turn : Turn) (after : Game)
    (hwf : g.board.Wf) (htwf : turn.Wf)
    (hplays : g.checkTurnPlays turn.plays = .ok after)
    (hfin : ¬(after.currentRoll.anyAvailable = true ∧
      ¬ after.getAvailablePlays.isEmpty = true)) :
    (g.checkTurn turn = .ok () ↔
      turn.distance g.board =
        (((g.availableTurnsAux (g.currentRoll.avail.length + 1)).map
            Turn.mk).map fun t => t.distance g.board).max?.getD 0) ∧
    (turn.distance g.board ≠
        (((g.availableTurnsAux (g.currentRoll.avail.length + 1)).map
            Turn.mk).map fun t => t.distance g.board).max?.getD 0 →
      g.checkTurn turn = .error .nonMaximalTurn) := by
  have hmem : turn.plays ∈
      g.availableTurnsAux (g.currentRoll.avail.length + 1) :=
    checkTurnPlays_mem_aux (g.currentRoll.avail.length + 1) g turn.plays
      after hwf htwf hplays hfin (Nat.lt_succ_self _)
  have hmemT : turn ∈
      (g.availableTurnsAux (g.currentRoll.avail.length + 1)).map Turn.mk :=
    List.mem_map.mpr ⟨turn.plays, hmem, rfl⟩
  have hiff : turn ∈ g.getAvailableTurns ↔
      turn.distance g.board =
        (((g.availableTurnsAux (g.currentRoll.avail.length + 1)).map
            Turn.mk).map fun t => t.distance g.board).max?.getD 0 := by
    rw [Game.getAvailableTurns]
    rw [List.mem_filter]
    constructor
    · intro h
      simpa using h.2
    · intro hd
      exact ⟨hmemT, by simpa using hd⟩
  have hstep : g.checkTurn turn =
      (if after.currentRoll.anyAvailable = true ∧
          ¬ after.getAvailablePlays.isEmpty = true then
        Except.error Error.incompleteTurn
      else if turn ∉ g.getAvailableTurns then
        Except.error Error.nonMaximalTurn
      else Except.ok ()) := by
    rw [Game.checkTurn, hplays]
  rw [hstep, if_neg hfin]
  refine ⟨⟨?_, ?_⟩, ?_⟩
  · intro hok2
    by_contra hne
    have hnot : turn ∉ g.getAvailableTurns :=
      fun hmem2 => hne (hiff.mp hmem2)
    rw [if_pos hnot] at hok2
    exact Except.noConfusion hok2
  · intro hd
    have hin : ¬ turn ∉ g.getAvailableTurns :=
      fun hnot => hnot (hiff.mpr hd)
    rw [if_neg hin]
  · intro hne
    have hnot : turn ∉ g.getAvailableTurns :=
      fun hmem2 => hne (hiff.mp hmem2)
    rw [if_pos hnot]

/-- Witness for C1: Black with dice 3 and 5 and a single piece on point
index 5 (location 6).  The turn `6/3/off` validates, exhausts the dice, and
its total distance 6 is the enumerated maximum, so `check_turn` accepts. -/
theorem turn_maximality_witness :
    (Game.mk .black (Dice.fromPair 3 5)
        (Board.empty.setPoint 5 1 .black)).checkTurn
      (Turn.mk [Play.mk .black (.point ⟨5, by decide⟩) (.point ⟨2, by decide⟩),
        Play.mk .black (.point ⟨2, by decide⟩) (.rail .black)]) = .ok () :=
  (turn_maximality
    (Game.mk .black (Dice.fromPair 3 5) (Board.empty.setPoint 5 1 .black))
    (Turn.mk [Play.mk .black (.point ⟨5, by decide⟩) (.point ⟨2, by decide⟩),
      Play.mk .black (.point ⟨2, by decide⟩) (.rail .black)])
    (((Game.mk .black (Dice.fromPair 3 5)
        (Board.empty.setPoint 5 1 .black)).makePlay
      (Play.mk .black (.point ⟨5, by decide⟩) (.point ⟨2, by decide⟩))).makePlay
      (Play.mk .black (.point ⟨2, by decide⟩) (.rail .black)))
    (by decide) (by decide) (by decide) (by decide)).1.mpr (by decide)

end Backgammon
